import Mathlib

/-!
# Verification of the citation-map service

A shallow embedding, in Lean 4, of the two Flask variants of the
citation-map service (`src/app.py` and `src/api/index.py`), together
with theorems settling the specification claims about them.

External effects (the `scholarly` client, the Nominatim geocoder,
`time.sleep` / `random.uniform`) are modelled by a deterministic
oracle structure `Services` plus explicit state threading:

* mutable module-level caches (`geocode_cache`, `author_cache`) become
  association lists threaded through each function;
* every call into an external service is recorded in a trace of
  `ECall` events, so "performs at most one external call" is a
  statement about the trace;
* a Python exception raised by an external call is modelled by the
  oracle returning `Except.error ()`;
* the values produced by `random.uniform` and consumed by
  `time.sleep` are modelled by a stream of numbers in the state; a
  sleep pops one element, which lets us state (and prove) that
  results do not depend on that stream.
-/

namespace CitationMap

/-! ## `extract_author_id` (src/app.py lines 39-60, src/api/index.py lines 249-267)

The Python function runs `re.search` for the two patterns
`user=([a-zA-Z0-9_-]+)` and `citations\?.*user=([a-zA-Z0-9_-]+)`, in
that order, and returns the first capture group of the first pattern
that matches; `None` if neither matches.

We embed the exact semantics of `re.search` for these two patterns on
lists of characters: leftmost match wins, `+` and `.*` are greedy,
`.` does not match a newline.
-/

/-- The character class `[a-zA-Z0-9_-]` of both patterns. -/
def isIdChar (c : Char) : Bool :=
  ('a' ≤ c && c ≤ 'z') || ('A' ≤ c && c ≤ 'Z') || ('0' ≤ c && c ≤ '9') ||
    c = '_' || c = '-'

/-- Match `user=([a-zA-Z0-9_-]+)` anchored at the head of `s`: the
literal `user=` followed by a non-empty, greedy (maximal) run of
class characters, which is the capture group. -/
def matchUserEq : List Char → Option (List Char)
  | 'u' :: 's' :: 'e' :: 'r' :: '=' :: rest =>
    let run := rest.takeWhile isIdChar
    if run.isEmpty then none else some run
  | _ => none

/-- Match `.*user=([a-zA-Z0-9_-]+)` anchored at the head of `s`.
`.*` is greedy and `.` does not match `'\n'`, so the rightmost
position of `user=` reachable without crossing a newline wins. -/
def matchDotStarUser : List Char → Option (List Char)
  | [] => none
  | c :: cs =>
    match (if c = '\n' then none else matchDotStarUser cs) with
    | some r => some r
    | none => matchUserEq (c :: cs)

/-- Match `citations\?.*user=([a-zA-Z0-9_-]+)` anchored at the head
of `s`: the literal `citations?` followed by `.*user=(...)`. -/
def matchPat2At : List Char → Option (List Char)
  | 'c' :: 'i' :: 't' :: 'a' :: 't' :: 'i' :: 'o' :: 'n' :: 's' :: '?' :: rest =>
    matchDotStarUser rest
  | _ => none

/-- `re.search` given the anchored matcher of a pattern: try each
start position from the left, returning the first success. -/
def re_search (m : List Char → Option (List Char)) : List Char → Option (List Char)
  | [] => m []
  | c :: cs =>
    match m (c :: cs) with
    | some r => some r
    | none => re_search m cs

/-- `extract_author_id` (identical in both source files): run
`re.search` for the two patterns in order and return the first
capture group of the first pattern that matches; `none` otherwise. -/
def extract_author_id (url : String) : Option String :=
  match re_search matchUserEq url.toList with
  | some g => some (String.mk g)
  | none =>
    match re_search matchPat2At url.toList with
    | some g => some (String.mk g)
    | none => none

/-! ## Data model

Python dictionaries coming back from `scholarly` are modelled by
structures whose fields are `Option`s: `d.get(key, default)` becomes
`field.getD default`.  Latitude and longitude are never computed
with, only copied, so they are modelled as `Int`. -/

/-- A geocoder hit: the `location` object used to build
`{'lat': ..., 'lng': ..., 'address': ...}`. -/
structure Location where
  lat : Int
  lng : Int
  address : String
deriving DecidableEq, Repr

/-- The `bib` sub-dictionary of one of the analysed author's own
publications. -/
structure Bib where
  title : Option String
  pub_year : Option String
deriving DecidableEq, Repr

/-- A publication object from `scholarly`. -/
structure Pub where
  bib : Option Bib
  num_citations : Option Int
deriving DecidableEq, Repr

/-- The `bib` sub-dictionary of a citing paper. -/
structure CitBib where
  author : Option String
  title : Option String
  pub_year : Option String
deriving DecidableEq, Repr

/-- A citing paper object from `scholarly.citedby`. -/
structure Citation where
  bib : Option CitBib
deriving DecidableEq, Repr

/-- An author record from `scholarly.search_author_id` + `fill`. -/
structure AuthorRec where
  name : Option String
  affiliation : Option String
  citedby : Option Int
  hindex : Option Int
  publications : Option (List Pub)
deriving DecidableEq, Repr

/-- A hit from `scholarly.search_author` (only the `affiliation`
field is read). -/
structure ScholarHit where
  affiliation : Option String
deriving DecidableEq, Repr

/-! ## External world

All external services are modelled by one deterministic oracle.
`Except.error ()` models a raised Python exception.  For
`scholarly.citedby` the oracle yields the finite list of citations
the iterator would produce plus a flag saying whether the iterator
raises after that list is exhausted (a raise mid-stream is the same
as a shorter list with the flag set). -/

structure Services where
  searchAuthorId : String → Except Unit AuthorRec
  fillAuthor : AuthorRec → Except Unit AuthorRec
  fillPub : Pub → Except Unit Pub
  citedby : Pub → Except Unit (List Citation × Bool)
  searchAuthor : String → Except Unit (Option ScholarHit)
  geocode : String → Except Unit (Option Location)

/-- One external call, as recorded in a trace. -/
inductive ECall where
  | searchAuthorId (id : String)
  | fillAuthor
  | fillPub
  | citedby
  | searchAuthor (name : String)
  | geocode (q : String)
  | setupProxy
deriving DecidableEq, Repr

/-- Mutable module-level state of `src/api/index.py`: the two caches
plus the stream of values produced by `random.uniform` / consumed by
`time.sleep`.  Dictionaries are association lists in insertion
order. -/
structure St where
  geocode_cache : List (String × Option Location)
  author_cache : List (String × String)
  delays : List Nat
deriving DecidableEq, Repr

/-- A `time.sleep(...)` call: consume one element of the delay
stream (its value is never read). -/
def popDelay (st : St) : St :=
  { st with delays := st.delays.tail }

/-- Dictionary lookup (`d[k]` / `k in d`). -/
def lookupA {α : Type} (m : List (String × α)) (k : String) : Option α :=
  match m with
  | [] => none
  | (k', v) :: rest => if k' = k then some v else lookupA rest k

/-- Dictionary assignment `d[k] = v`: update in place, or append a
new key at the end. -/
def insertA {α : Type} (m : List (String × α)) (k : String) (v : α) :
    List (String × α) :=
  match m with
  | [] => [(k, v)]
  | (k', v') :: rest =>
    if k' = k then (k', v) :: rest else (k', v') :: insertA rest k v

/-- Python's `str.strip()`: drop leading and trailing whitespace.
(Executable by the kernel, unlike `String.trim`.) -/
def pyStrip (s : String) : String :=
  ⟨((s.data.dropWhile Char.isWhitespace).reverse.dropWhile Char.isWhitespace).reverse⟩

/-- If `sep` is a prefix of `s`, return the remainder. -/
def stripPrefixQ : List Char → List Char → Option (List Char)
  | [], s => some s
  | _ :: _, [] => none
  | p :: ps, c :: cs => if c = p then stripPrefixQ ps cs else none

/-- Worker for `pySplit`, with fuel (one unit per character consumed,
so `s.length` fuel always suffices for a non-empty separator). -/
def splitOnFuel (sep : List Char) : Nat → List Char → List Char → List (List Char)
  | 0, s, acc => [acc.reverse ++ s]
  | fuel + 1, s, acc =>
    match s with
    | [] => [acc.reverse]
    | c :: cs =>
      match stripPrefixQ sep (c :: cs) with
      | some rest => acc.reverse :: splitOnFuel sep fuel rest []
      | none => splitOnFuel sep fuel cs (c :: acc)

/-- Python's `s.split(sep)` for a non-empty separator: split at each
non-overlapping occurrence of `sep`, scanning left to right, keeping
empty pieces. -/
def pySplit (s sep : String) : List String :=
  (splitOnFuel sep.data s.data.length s.data []).map String.mk

/-! ## `geocode_institution` (src/api/index.py lines 104-144)

`src/app.py` lines 62-105 are the same function with a different
sleep constant and an additional `functools.lru_cache` wrapper, which
only adds one more layer of memoisation keyed on the unstripped
argument; the theorems below are about the shared body. -/

def geocode_institution (svc : Services) (st : St) (institution : String) :
    Option Location × St × List ECall :=
  if pyStrip institution = "" then (none, st, [])
  else
    let inst := pyStrip institution
    match lookupA st.geocode_cache inst with
    | some v => (v, st, [])
    | none =>
      let st := popDelay st
      match svc.geocode inst with
      | Except.ok (some loc) =>
        (some loc,
         { st with geocode_cache := insertA st.geocode_cache inst (some loc) },
         [ECall.geocode inst])
      | Except.ok none =>
        (none,
         { st with geocode_cache := insertA st.geocode_cache inst none },
         [ECall.geocode inst])
      | Except.error _ =>
        (none,
         { st with geocode_cache := insertA st.geocode_cache inst none },
         [ECall.geocode inst])

/-! ## The four fetch helpers of src/api/index.py -/

/-- `get_author_info` (src/api/index.py lines 146-167):
`search_author_id` then `fill`, with a random-delay sleep first; any
exception yields `None`. -/
def get_author_info (svc : Services) (st : St) (author_id : String) :
    Option AuthorRec × St × List ECall :=
  let st := popDelay st
  match svc.searchAuthorId author_id with
  | Except.error _ => (none, st, [ECall.searchAuthorId author_id])
  | Except.ok a =>
    match svc.fillAuthor a with
    | Except.error _ => (none, st, [ECall.searchAuthorId author_id, ECall.fillAuthor])
    | Except.ok a2 => (some a2, st, [ECall.searchAuthorId author_id, ECall.fillAuthor])

/-- `get_publication_details` (src/api/index.py lines 169-187):
`fill` a publication; on exception return the original object. -/
def get_publication_details (svc : Services) (st : St) (pub : Pub) :
    Pub × St × List ECall :=
  let st := popDelay st
  match svc.fillPub pub with
  | Except.error _ => (pub, st, [ECall.fillPub])
  | Except.ok p => (p, st, [ECall.fillPub])

/-- The `for citation in citations` loop of `get_citing_papers`:
stop at `max_citations`, appending and sleeping each iteration. -/
def citingLoop (st : St) (max_citations : Int) :
    List Citation → Nat → List Citation × St
  | [], _ => ([], st)
  | c :: cs, count =>
    if max_citations ≤ (count : Int) then ([], st)
    else
      let st' := popDelay st
      let (rest, st'') := citingLoop st' max_citations cs (count + 1)
      (c :: rest, st'')

/-- `get_citing_papers` (src/api/index.py lines 189-213): one
`scholarly.citedby` call, then iterate up to `max_citations`; any
exception yields the papers collected so far. -/
def get_citing_papers (svc : Services) (st : St) (publication : Pub)
    (max_citations : Int := 10) : List Citation × St × List ECall :=
  match svc.citedby publication with
  | Except.error _ => ([], st, [ECall.citedby])
  | Except.ok (cs, _raisesAfter) =>
    let (papers, st') := citingLoop st max_citations cs 0
    (papers, st', [ECall.citedby])

/-- `get_author_affiliation` (src/api/index.py lines 215-247), with
the affiliation-cleaning heuristic `clean_affiliation` (lines 72-102)
passed in as the parameter `clean`: it is a pure string-to-string
regex heuristic that no claim depends on.  Results are cached in
`author_cache`; on a miss the author search runs once, and on
exception or no hit the empty string is cached and returned. -/
def get_author_affiliation (clean : String → String) (svc : Services) (st : St)
    (author_name : String) : String × St × List ECall :=
  match lookupA st.author_cache author_name with
  | some v => (v, st, [])
  | none =>
    let st := popDelay st
    match svc.searchAuthor author_name with
    | Except.ok (some hit) =>
      let cleaned := clean (hit.affiliation.getD "")
      (cleaned,
       { st with author_cache := insertA st.author_cache author_name cleaned },
       [ECall.searchAuthor author_name])
    | Except.ok none =>
      ("",
       { st with author_cache := insertA st.author_cache author_name "" },
       [ECall.searchAuthor author_name])
    | Except.error _ =>
      ("",
       { st with author_cache := insertA st.author_cache author_name "" },
       [ECall.searchAuthor author_name])

/-! ## JSON values and the response records -/

/-- The JSON values that `jsonify` produces here.  Numeric values
(citation counts, h-index, coordinates) are modelled as `Int`. -/
inductive JValue where
  | str (s : String)
  | num (n : Int)
  | null
  | arr (elems : List JValue)
  | obj (fields : List (String × JValue))

/-- An entry of `result['publications']`. -/
structure PubInfo where
  title : String
  year : String
  citations : Int
deriving DecidableEq, Repr

/-- An entry of `result['citing_authors']`. -/
structure CitingInfo where
  name : String
  affiliation : String
  paper_title : String
  year : String
deriving DecidableEq, Repr

/-- A value of `affiliations_map` (src/api/index.py lines 441-448). -/
structure AffInfo where
  count : Nat
  authors : List String
deriving DecidableEq, Repr

/-- An entry of `result['locations']`. -/
structure LocEntry where
  institution : String
  lat : Int
  lng : Int
  count : Nat
  authors : List String
deriving DecidableEq, Repr

def PubInfo.toJson (p : PubInfo) : JValue :=
  .obj [("title", .str p.title), ("year", .str p.year),
        ("citations", .num p.citations)]

def CitingInfo.toJson (c : CitingInfo) : JValue :=
  .obj [("name", .str c.name), ("affiliation", .str c.affiliation),
        ("paper_title", .str c.paper_title), ("year", .str c.year)]

def LocEntry.toJson (l : LocEntry) : JValue :=
  .obj [("institution", .str l.institution), ("lat", .num l.lat),
        ("lng", .num l.lng), ("count", .num (l.count : Int)),
        ("authors", .arr (l.authors.map JValue.str))]

/-- The `result['author']` object (src/api/index.py lines 382-387). -/
def authorHeader (author : AuthorRec) : JValue :=
  .obj [("name", .str (author.name.getD "Unknown")),
        ("affiliation", .str (author.affiliation.getD "Unknown")),
        ("citations", .num (author.citedby.getD 0)),
        ("h_index", .num (author.hindex.getD 0))]

/-! ## `/api/analyze` of src/api/index.py (lines 336-469) -/

/-- The JSON request payload; `data.get(k, default)` is
`field.getD default`. -/
structure Payload where
  url : Option String
  max_papers : Option Int
  max_citations : Option Int
deriving DecidableEq, Repr

/-- An HTTP response: status code and JSON body. -/
structure Response where
  status : Nat
  body : JValue

/-- Python's list slice `l[:k]` for an `int` k (negative `k` counts
from the end). -/
def pySlice {α : Type} (l : List α) (k : Int) : List α :=
  if 0 ≤ k then l.take k.toNat else l.take (l.length - (-k).toNat)

/-- Sort key `x.get('num_citations', 0)`. -/
def pubKey (p : Pub) : Int := p.num_citations.getD 0

/-- Lines 394-395: sort the author's publications by `num_citations`
descending (Python's `sorted` with `reverse=True` is stable, as is
`List.mergeSort`) and slice to `max_papers`. -/
def select_publications (pubs : List Pub) (max_papers : Int) : List Pub :=
  pySlice (List.insertionSort (fun a b => pubKey b ≤ pubKey a) pubs) max_papers

/-- Lines 440-448: track one citing author in `affiliations_map`:
create the entry on first sight, bump `count`, and append the name
if it is not already listed. -/
def updateAffMap (m : List (String × AffInfo)) (affiliation author_name : String) :
    List (String × AffInfo) :=
  let m :=
    match lookupA m affiliation with
    | some _ => m
    | none => insertA m affiliation ⟨0, []⟩
  match lookupA m affiliation with
  | some info =>
    let info := { info with count := info.count + 1 }
    let info :=
      if author_name ∈ info.authors then info
      else { info with authors := info.authors ++ [author_name] }
    insertA m affiliation info
  | none => m

/-- Lines 417-448: process one citing paper — parse the first author
of the `bib['author']` string, fetch its affiliation, append the
record and update `affiliations_map`. -/
def processCitingPaper (clean : String → String) (svc : Services)
    (acc : List CitingInfo × List (String × AffInfo) × St × List ECall)
    (citing_paper : Citation) :
    List CitingInfo × List (String × AffInfo) × St × List ECall :=
  let (citing, affMap, st, tr) := acc
  let bib := citing_paper.bib.getD ⟨none, none, none⟩
  let author_str := bib.author.getD ""
  if author_str = "" then (citing, affMap, st, tr)
  else
    match pySplit author_str " and " with
    | [] => (citing, affMap, st, tr)
    | a0 :: _ =>
      let author_name := pyStrip a0
      if author_name ≠ "" ∧ 1 < author_name.length then
        let (affiliation, st1, tr1) := get_author_affiliation clean svc st author_name
        let citing_info : CitingInfo :=
          ⟨author_name, affiliation, bib.title.getD "Unknown", bib.pub_year.getD "Unknown"⟩
        let citing := citing ++ [citing_info]
        let affMap :=
          if affiliation ≠ "" then updateAffMap affMap affiliation author_name
          else affMap
        (citing, affMap, st1, tr ++ tr1)
      else (citing, affMap, st, tr)

/-- Lines 400-448: process one selected publication — fill it,
record its `PubInfo`, and when it has citations fetch and process
its citing papers. -/
def processPublication (clean : String → String) (svc : Services)
    (max_citations_per_paper : Int)
    (acc : List PubInfo × List CitingInfo × List (String × AffInfo) × St × List ECall)
    (pub : Pub) :
    List PubInfo × List CitingInfo × List (String × AffInfo) × St × List ECall :=
  let (pubInfos, citing, affMap, st, tr) := acc
  let (pub_filled, st1, tr1) := get_publication_details svc st pub
  let bib := pub_filled.bib.getD ⟨none, none⟩
  let pub_info : PubInfo :=
    ⟨bib.title.getD "Unknown", bib.pub_year.getD "Unknown", pub_filled.num_citations.getD 0⟩
  let pubInfos := pubInfos ++ [pub_info]
  if 0 < pub_info.citations then
    let (citing_papers, st2, tr2) :=
      get_citing_papers svc st1 pub_filled max_citations_per_paper
    let (citing2, affMap2, st3, tr3) :=
      citing_papers.foldl (processCitingPaper clean svc) (citing, affMap, st2, [])
    (pubInfos, citing2, affMap2, st3, tr ++ tr1 ++ tr2 ++ tr3)
  else
    (pubInfos, citing, affMap, st1, tr ++ tr1)

/-- The whole publication loop (lines 397-450), from the selected
publications to (`result['publications']`, `all_citing_authors`,
`affiliations_map`). -/
def publicationLoop (clean : String → String) (svc : Services) (st : St)
    (pubs : List Pub) (max_citations_per_paper : Int) :
    List PubInfo × List CitingInfo × List (String × AffInfo) × St × List ECall :=
  pubs.foldl (processPublication clean svc max_citations_per_paper)
    ([], [], [], st, [])

/-- Lines 453-463: geocode one `affiliations_map` entry and, on
success, append a `locations` entry (at most 5 author names). -/
def geocodeEntry (svc : Services)
    (acc : List LocEntry × St × List ECall) (entry : String × AffInfo) :
    List LocEntry × St × List ECall :=
  let (locs, st, tr) := acc
  let (coords, st1, tr1) := geocode_institution svc st entry.1
  match coords with
  | some loc =>
    (locs ++ [⟨entry.1, loc.lat, loc.lng, entry.2.count, entry.2.authors.take 5⟩],
     st1, tr ++ tr1)
  | none => (locs, st1, tr ++ tr1)

/-- The geocoding loop over `affiliations_map` (insertion order). -/
def geocodeLoop (svc : Services) (st : St) (affMap : List (String × AffInfo)) :
    List LocEntry × St × List ECall :=
  affMap.foldl (geocodeEntry svc) ([], st, [])

/-- `analyze_scholar` of src/api/index.py (lines 336-469): cap the
client limits, reject a url without an author id (400), fetch the
author (503 on failure), run the publication loop, geocode the
affiliations and serialize the fixed-shape JSON response. -/
def analyze_scholar (clean : String → String) (svc : Services) (st : St)
    (data : Payload) : Response × St × List ECall :=
  let scholar_url := data.url.getD ""
  let max_papers := min (data.max_papers.getD 3) 5
  let max_citations_per_paper := min (data.max_citations.getD 5) 10
  match extract_author_id scholar_url with
  | none =>
    (⟨400, .obj [("error", .str "Invalid Google Scholar URL. Please use a URL like: https://scholar.google.com/citations?user=XXXXX")]⟩,
     st, [])
  | some author_id =>
    let (authorOpt, st1, tr1) := get_author_info svc st author_id
    match authorOpt with
    | none =>
      (⟨503, .obj [("error", .str "Could not fetch author information. Google Scholar may be blocking requests. Please try again later or use Demo mode.")]⟩,
       st1, ECall.setupProxy :: tr1)
    | some author =>
      let pubsSel := select_publications (author.publications.getD []) max_papers
      let (pubInfos, citing, affMap, st2, tr2) :=
        publicationLoop clean svc st1 pubsSel max_citations_per_paper
      let (locs, st3, tr3) := geocodeLoop svc st2 affMap
      let body := JValue.obj
        [("author", authorHeader author),
         ("publications", .arr (pubInfos.map PubInfo.toJson)),
         ("citing_authors", .arr (citing.map CitingInfo.toJson)),
         ("locations", .arr (locs.map LocEntry.toJson))]
      (⟨200, body⟩, st3, ECall.setupProxy :: (tr1 ++ tr2 ++ tr3))

/-! ## Derived notions used in the statements -/

/-- `Except` to `Option`: a raised exception becomes `none`. -/
def exceptToOption {α : Type} : Except Unit α → Option α
  | Except.ok a => some a
  | Except.error _ => none

/-- Number of external geocoder calls for query `q` in a trace. -/
def geoCalls (tr : List ECall) (q : String) : Nat :=
  tr.countP (fun e => decide (e = ECall.geocode q))

/-- First-occurrence deduplication, as performed by repeatedly
executing `if name not in xs: xs.append(name)`. -/
def dedupFirst (l : List String) : List String :=
  l.foldl (fun acc n => if n ∈ acc then acc else acc ++ [n]) []

/-- The value the external geocoder resolves `q` to (`none` when the
lookup raises or finds nothing). -/
def externGeo (svc : Services) (q : String) : Option Location :=
  match svc.geocode q with
  | Except.ok (some l) => some l
  | _ => none

/-- The geocode cache only holds values the external geocoder would
return.  It holds for the empty cache the process starts with, and is
preserved by every function that touches the cache. -/
def GeoConsistent (svc : Services) (st : St) : Prop :=
  ∀ k v, lookupA st.geocode_cache k = some v → v = externGeo svc k

/-- Two states that agree on both caches (their delay streams may
differ). -/
def StEq (s t : St) : Prop :=
  s.geocode_cache = t.geocode_cache ∧ s.author_cache = t.author_cache

/-- The invariant tying `affiliations_map` to `all_citing_authors`
(src/api/index.py lines 437-448). -/
def AffInv (citing : List CitingInfo) (m : List (String × AffInfo)) : Prop :=
  (m.map Prod.fst).Nodup ∧
  lookupA m "" = none ∧
  (∀ c, c ∈ citing → c.affiliation ≠ "" → (lookupA m c.affiliation).isSome) ∧
  ∀ a info, lookupA m a = some info →
    a ≠ "" ∧
    info.count = (citing.filter (fun c => decide (c.affiliation = a))).length ∧
    info.authors =
      dedupFirst ((citing.filter (fun c => decide (c.affiliation = a))).map CitingInfo.name) ∧
    1 ≤ info.count ∧ info.authors ≠ []

/-! ## JSON shape predicates (for the fixed response shape) -/

/-- A primitive JSON value: string, number or null. -/
def isPrim : JValue → Bool
  | .str _ => true
  | .num _ => true
  | .null => true
  | _ => false

/-- A field value of a flat object: a primitive, or an array of
primitives. -/
def isFlatField : JValue → Bool
  | .arr xs => xs.all isPrim
  | v => isPrim v

/-- A flat (unnested) object: every field is a flat field value. -/
def isFlatObj : JValue → Bool
  | .obj fs => fs.all (fun f => isFlatField f.2)
  | _ => false

/-- A flat list: an array of flat objects. -/
def isFlatList : JValue → Bool
  | .arr xs => xs.all isFlatObj
  | _ => false

/-- The `author` object has exactly the keys `name`, `affiliation`,
`citations`, `h_index`, with primitive values. -/
def authorShapeOk : JValue → Bool
  | .obj [("name", n), ("affiliation", a), ("citations", c), ("h_index", h)] =>
    isPrim n && isPrim a && isPrim c && isPrim h
  | _ => false

/-- The fixed shape of a successful response: exactly the top-level
keys `author`, `publications`, `citing_authors`, `locations`; the
author object as above; the three lists flat. -/
def responseShapeOk : JValue → Bool
  | .obj [("author", a), ("publications", p), ("citing_authors", c), ("locations", l)] =>
    authorShapeOk a && isFlatList p && isFlatList c && isFlatList l
  | _ => false

/-- Look up a field of a JSON object. -/
def jfield (v : JValue) (k : String) : Option JValue :=
  match v with
  | .obj fs => lookupA fs k
  | _ => none

/-- The length of a JSON array. -/
def jarrLen : JValue → Option Nat
  | .arr xs => some xs.length
  | _ => none

/-! ## Concrete fixtures

A small concrete oracle used by witnesses and counterexamples. -/

def pubA : Pub := ⟨some ⟨some "A", some "2018"⟩, some 5⟩

def pubB : Pub := ⟨some ⟨some "B", some "2019"⟩, some 0⟩

def pubC : Pub := ⟨some ⟨some "C", some "2020"⟩, some 7⟩

def cit1 : Citation := ⟨some ⟨some "John Smith and Foo Bar", some "T1", some "2021"⟩⟩

def cit2 : Citation := ⟨some ⟨some "Jane Doe", some "T2", some "2022"⟩⟩

def cit3 : Citation := ⟨some ⟨some "John Smith and X", some "T3", some "2023"⟩⟩

def sampleAuthor : AuthorRec :=
  ⟨some "Alice", some "Wonderland U", some 100, some 9, some [pubA, pubB, pubC]⟩

def sampleSvc : Services where
  searchAuthorId := fun i =>
    if i = "AB12" then Except.ok ⟨some "Alice", none, none, none, none⟩
    else Except.error ()
  fillAuthor := fun _ => Except.ok sampleAuthor
  fillPub := fun p => Except.ok p
  citedby := fun p =>
    if p = pubC then Except.ok ([cit1, cit2], false)
    else if p = pubA then Except.ok ([cit3], false)
    else Except.error ()
  searchAuthor := fun n =>
    if n = "John Smith" then Except.ok (some ⟨some "MIT"⟩)
    else if n = "Jane Doe" then Except.ok (some ⟨some "MIT"⟩)
    else Except.ok none
  geocode := fun q =>
    if q = "MIT" then Except.ok (some ⟨42, -71, "MIT, Cambridge"⟩)
    else Except.ok none

def st0 : St := ⟨[], [], [1, 2, 3, 4, 5, 6, 7, 8, 9, 10]⟩

def payload0 : Payload :=
  ⟨some "https://scholar.google.com/citations?user=AB12&hl=en", none, none⟩

/-- A payload whose `url` is a plain name: no `user=` parameter. -/
def plainNamePayload : Payload := ⟨some "Albert Einstein", none, none⟩

/-- A payload asking for at most one publication. -/
def payloadOne : Payload :=
  ⟨some "https://scholar.google.com/citations?user=AB12&hl=en", some 1, none⟩

/-- A payload with a negative `max_papers` (a Python `int` the
endpoint forwards into `min` and a list slice). -/
def payloadNeg : Payload :=
  ⟨some "https://scholar.google.com/citations?user=AB12&hl=en", some (-1), none⟩

/-! # Theorems -/

/-! ## Association-list lemmas -/

theorem lookupA_insertA_self {α : Type} (m : List (String × α)) (k : String) (v : α) :
    lookupA (insertA m k v) k = some v := by
  induction m with
  | nil => simp [insertA, lookupA]
  | cons p rest ih =>
    obtain ⟨k', v'⟩ := p
    by_cases h : k' = k
    · simp [insertA, h, lookupA]
    · simp [insertA, h, lookupA, ih]

theorem lookupA_insertA_ne {α : Type} (m : List (String × α)) (k k' : String) (v : α)
    (h : k' ≠ k) : lookupA (insertA m k v) k' = lookupA m k' := by
  have hk : k ≠ k' := fun hh => h hh.symm
  induction m with
  | nil => simp [insertA, lookupA, hk]
  | cons p rest ih =>
    obtain ⟨k0, v0⟩ := p
    by_cases h0 : k0 = k
    · subst h0
      have hk0 : k0 ≠ k' := hk
      simp [insertA, lookupA, hk0]
    · simp only [insertA, h0, if_false, lookupA]
      by_cases h1 : k0 = k'
      · simp [h1]
      · simp [h1, ih]

theorem lookupA_insertA_isSome {α : Type} (m : List (String × α)) (k k' : String)
    (v : α) (h : (lookupA m k').isSome) : (lookupA (insertA m k v) k').isSome := by
  by_cases hk : k' = k
  · subst hk
    rw [lookupA_insertA_self]
    rfl
  · rwa [lookupA_insertA_ne _ _ _ _ hk]

/-! ### Leftmost-match characterisation of `re_search` -/

theorem re_search_nil (m : List Char → Option (List Char)) :
    re_search m [] = m [] := rfl

theorem re_search_cons (m : List Char → Option (List Char)) (c : Char) (cs : List Char) :
    re_search m (c :: cs) =
      match m (c :: cs) with
      | some r => some r
      | none => re_search m cs := rfl

/-- Helper: matchers that fail on `[]` fail on every `drop i` of `[]`. -/
theorem drop_nil_eq (i : Nat) : ([] : List Char).drop i = [] := by
  cases i <;> rfl

/-- `re_search m s = some r` iff the pattern matches at some position,
the earliest matching position yielding `r`. -/
theorem re_search_eq_some (m : List Char → Option (List Char)) (s : List Char)
    (r : List Char) :
    re_search m s = some r ↔
      ∃ i, m (s.drop i) = some r ∧ ∀ j, j < i → m (s.drop j) = none := by
  induction s with
  | nil =>
    rw [re_search_nil]
    constructor
    · intro h
      exact ⟨0, by simpa using h, by omega⟩
    · rintro ⟨i, hi, hj⟩
      rcases Nat.eq_zero_or_pos i with h0 | h0
      · simpa [h0] using hi
      · simpa [drop_nil_eq] using hi
  | cons c cs ih =>
    rw [re_search_cons]
    cases hm : m (c :: cs) with
    | some r' =>
      simp only [Option.some.injEq]
      constructor
      · intro h
        exact ⟨0, by simpa [hm] using congrArg some h, by omega⟩
      · rintro ⟨i, hi, hj⟩
        rcases Nat.eq_zero_or_pos i with h0 | h0
        · subst h0
          simp only [List.drop_zero] at hi
          rw [hm] at hi
          exact (Option.some.injEq _ _).mp hi
        · have := hj 0 h0
          simp only [List.drop_zero] at this
          rw [hm] at this
          exact absurd this (by simp)
    | none =>
      rw [ih]
      constructor
      · rintro ⟨i, hi, hj⟩
        refine ⟨i + 1, by simpa using hi, ?_⟩
        intro j hjlt
        cases j with
        | zero => simpa using hm
        | succ j' =>
          have : m (cs.drop j') = none := hj j' (by omega)
          simpa using this
      · rintro ⟨i, hi, hj⟩
        cases i with
        | zero =>
          simp only [List.drop_zero] at hi
          rw [hm] at hi
          exact absurd hi (by simp)
        | succ i' =>
          refine ⟨i', by simpa using hi, ?_⟩
          intro j hjlt
          have : m ((c :: cs).drop (j + 1)) = none := hj (j + 1) (by omega)
          simpa using this

/-- `re_search m s = none` iff the pattern matches at no position. -/
theorem re_search_eq_none (m : List Char → Option (List Char)) (s : List Char) :
    re_search m s = none ↔ ∀ i, m (s.drop i) = none := by
  induction s with
  | nil =>
    rw [re_search_nil]
    constructor
    · intro h i
      simpa [drop_nil_eq] using h
    · intro h
      simpa using h 0
  | cons c cs ih =>
    rw [re_search_cons]
    cases hm : m (c :: cs) with
    | some r' =>
      simp only []
      constructor
      · intro h
        exact absurd h (by simp)
      · intro h
        have := h 0
        simp only [List.drop_zero] at this
        rw [hm] at this
        exact absurd this (by simp)
    | none =>
      rw [ih]
      constructor
      · intro h i
        cases i with
        | zero => simpa using hm
        | succ i' => simpa using h i'
      · intro h i
        have := h (i + 1)
        simpa using this

/-- C1. `extract_author_id` tries the patterns `user=([a-zA-Z0-9_-]+)`
and `citations\?.*user=([a-zA-Z0-9_-]+)` in that order: it returns the
first capture group at the leftmost position where the first pattern
matches; failing that, the first capture group at the leftmost position
where the second pattern matches; and `none` when neither pattern
matches anywhere in `url`. -/
theorem extract_author_id_correct (url : String) :
    (extract_author_id url = none ↔
      (∀ i, matchUserEq (url.toList.drop i) = none) ∧
      (∀ i, matchPat2At (url.toList.drop i) = none)) ∧
    (∀ g : String, extract_author_id url = some g ↔
      ((∃ i, matchUserEq (url.toList.drop i) = some g.toList ∧
          ∀ j, j < i → matchUserEq (url.toList.drop j) = none) ∨
       ((∀ i, matchUserEq (url.toList.drop i) = none) ∧
        ∃ i, matchPat2At (url.toList.drop i) = some g.toList ∧
          ∀ j, j < i → matchPat2At (url.toList.drop j) = none))) := by
  constructor
  · unfold extract_author_id
    cases h1 : re_search matchUserEq url.toList with
    | some g =>
      simp only []
      constructor
      · intro h
        exact absurd h (by simp)
      · rintro ⟨hall, _⟩
        have h1' := (re_search_eq_none matchUserEq url.toList).mpr hall
        rw [h1'] at h1
        exact absurd h1 (by simp)
    | none =>
      cases h2 : re_search matchPat2At url.toList with
      | some g =>
        simp only []
        constructor
        · intro h
          exact absurd h (by simp)
        · rintro ⟨_, hall⟩
          have h2' := (re_search_eq_none matchPat2At url.toList).mpr hall
          rw [h2'] at h2
          exact absurd h2 (by simp)
      | none =>
        simp only []
        constructor
        · intro _
          exact ⟨(re_search_eq_none _ _).mp h1, (re_search_eq_none _ _).mp h2⟩
        · intro _
          trivial
  · intro g
    unfold extract_author_id
    cases h1 : re_search matchUserEq url.toList with
    | some g1 =>
      simp only [Option.some.injEq]
      rw [re_search_eq_some] at h1
      constructor
      · intro h
        left
        subst h
        simpa [String.toList] using h1
      · rintro (⟨i, hi, hj⟩ | ⟨hall, _⟩)
        · rcases h1 with ⟨i', hi', hj'⟩
          have hii : i = i' := by
            by_contra hne
            rcases Nat.lt_or_ge i i' with hlt | hge
            · rw [hj' i hlt] at hi
              exact absurd hi (by simp)
            · have hlt : i' < i := by omega
              rw [hj i' hlt] at hi'
              exact absurd hi' (by simp)
          subst hii
          rw [hi] at hi'
          have hg : g.toList = g1 := by
            have := (Option.some.injEq _ _).mp hi'
            exact this
          cases g with
          | mk data =>
            simp only [String.toList] at hg
            simp [hg]
        · rcases h1 with ⟨i', hi', _⟩
          rw [hall i'] at hi'
          exact absurd hi' (by simp)
    | none =>
      have hnone1 := (re_search_eq_none _ _).mp h1
      cases h2 : re_search matchPat2At url.toList with
      | some g2 =>
        simp only [Option.some.injEq]
        rw [re_search_eq_some] at h2
        constructor
        · intro h
          right
          subst h
          refine ⟨hnone1, ?_⟩
          simpa [String.toList] using h2
        · rintro (⟨i, hi, _⟩ | ⟨_, i, hi, hj⟩)
          · rw [hnone1 i] at hi
            exact absurd hi (by simp)
          · rcases h2 with ⟨i', hi', hj'⟩
            have hii : i = i' := by
              by_contra hne
              rcases Nat.lt_or_ge i i' with hlt | hge
              · rw [hj' i hlt] at hi
                exact absurd hi (by simp)
              · have hlt : i' < i := by omega
                rw [hj i' hlt] at hi'
                exact absurd hi' (by simp)
            subst hii
            rw [hi] at hi'
            have hg : g.toList = g2 := (Option.some.injEq _ _).mp hi'
            cases g with
            | mk data =>
              simp only [String.toList] at hg
              simp [hg]
      | none =>
        have hnone2 := (re_search_eq_none _ _).mp h2
        simp only []
        constructor
        · intro h
          exact absurd h (by simp)
        · rintro (⟨i, hi, _⟩ | ⟨_, i, hi, _⟩)
          · rw [hnone1 i] at hi
            exact absurd hi (by simp)
          · rw [hnone2 i] at hi
            exact absurd hi (by simp)

/-! ## Claim C2: which identifiers the endpoint accepts -/

/-- The trace of `get_author_info` always starts with the
`search_author_id` call. -/
theorem get_author_info_trace_mem (svc : Services) (st : St) (aid : String) :
    ECall.searchAuthorId aid ∈ (get_author_info svc st aid).2.2 := by
  unfold get_author_info
  cases hsa : svc.searchAuthorId aid with
  | error e => simp [hsa]
  | ok a =>
    cases hfa : svc.fillAuthor a with
    | error e => simp [hsa, hfa]
    | ok a2 => simp [hsa, hfa]

/-- C2, counterexample: a plain name (no `user=` parameter) posted to
`/api/analyze` is rejected as an invalid URL with status 400, contrary
to the claim that plain names are accepted. -/
theorem analyze_rejects_plain_name :
    (analyze_scholar id sampleSvc st0 plainNamePayload).1.status = 400 := by decide

/-- C2, amended: `/api/analyze` returns status 400 exactly when
`extract_author_id` finds no `user=<id>` parameter in the `url` field
(so plain names and Semantic Scholar URLs are rejected); when an id is
found the endpoint proceeds to fetch the author's data (the trace
contains the `search_author_id` call for that id). -/
theorem analyze_400_iff_no_author_id (clean : String → String) (svc : Services)
    (st : St) (data : Payload) :
    ((analyze_scholar clean svc st data).1.status = 400 ↔
      extract_author_id (data.url.getD "") = none) ∧
    (extract_author_id (data.url.getD "") = none ∨
      ECall.searchAuthorId ((extract_author_id (data.url.getD "")).getD "") ∈
        (analyze_scholar clean svc st data).2.2) := by
  unfold analyze_scholar
  cases hex : extract_author_id (data.url.getD "") with
  | none => simp [hex]
  | some aid =>
    have hmem := get_author_info_trace_mem svc st aid
    cases hga : (get_author_info svc st aid).1 with
    | none =>
      simp only [hex]
      simp [hga, hmem]
    | some author =>
      simp only [hex]
      simp [hga, hmem]

/-! ## Claim C6: no upstream fetch retries -/

/-- The citing-paper iteration collects exactly the first
`max_citations` elements the iterator yields. -/
theorem citingLoop_fst (mc : Int) (cs : List Citation) :
    ∀ (st : St) (count : Nat),
      (citingLoop st mc cs count).1 = cs.take (mc - count).toNat := by
  induction cs with
  | nil => intro st count; simp [citingLoop]
  | cons c cs ih =>
    intro st count
    unfold citingLoop
    by_cases h : mc ≤ (count : Int)
    · have h0 : (mc - count).toNat = 0 := by omega
      simp [h, h0]
    · have h1 : (mc - count).toNat = (mc - ((count : Int) + 1)).toNat + 1 := by omega
      have h2 : ((count + 1 : Nat) : Int) = (count : Int) + 1 := by push_cast; ring
      simp only [h, if_false]
      simp only [List.take, h1]
      rw [← h2, ih]

/-- C6.  Each of the four fetch helpers of `src/api/index.py`
performs each of its underlying external `scholarly` calls at most
once per invocation, and its result is a single-attempt composition
of the oracle answers: on exception it is the fallback value (`none`,
the original publication, the citing papers collected so far, or the
empty string) — the helpers are total, so no exception escapes, and
no call is re-attempted. -/
theorem fetch_helpers_single_attempt (clean : String → String) (svc : Services)
    (st1 st2 st3 st4 : St) (aid : String) (pub : Pub) (mc : Int) (nm : String) :
    ((get_author_info svc st1 aid).2.2.count (ECall.searchAuthorId aid) ≤ 1 ∧
     (get_author_info svc st1 aid).2.2.count ECall.fillAuthor ≤ 1 ∧
     (get_author_info svc st1 aid).1 =
       (exceptToOption (svc.searchAuthorId aid)).bind
         (fun a => exceptToOption (svc.fillAuthor a))) ∧
    ((get_publication_details svc st2 pub).2.2.length ≤ 1 ∧
     (get_publication_details svc st2 pub).1 =
       (exceptToOption (svc.fillPub pub)).getD pub) ∧
    ((get_citing_papers svc st3 pub mc).2.2.length ≤ 1 ∧
     (get_citing_papers svc st3 pub mc).1 =
       ((exceptToOption (svc.citedby pub)).map (fun x => x.1.take mc.toNat)).getD []) ∧
    ((get_author_affiliation clean svc st4 nm).2.2.length ≤ 1 ∧
     (get_author_affiliation clean svc st4 nm).1 =
       (lookupA st4.author_cache nm).getD
         (match svc.searchAuthor nm with
          | Except.ok (some hit) => clean (hit.affiliation.getD "")
          | _ => "")) := by
  refine ⟨?_, ?_, ?_, ?_⟩
  · unfold get_author_info
    cases hsa : svc.searchAuthorId aid with
    | error e => simp [hsa, exceptToOption]
    | ok a =>
      cases hfa : svc.fillAuthor a with
      | error e => simp [hsa, hfa, exceptToOption, List.count_cons]
      | ok a2 => simp [hsa, hfa, exceptToOption, List.count_cons]
  · unfold get_publication_details
    cases hfp : svc.fillPub pub with
    | error e => simp [hfp, exceptToOption]
    | ok p => simp [hfp, exceptToOption]
  · unfold get_citing_papers
    cases hcb : svc.citedby pub with
    | error e => simp [hcb, exceptToOption]
    | ok x =>
      obtain ⟨cs, b⟩ := x
      simp [hcb, exceptToOption, citingLoop_fst]
  · unfold get_author_affiliation
    cases hl : lookupA st4.author_cache nm with
    | some v => simp [hl]
    | none =>
      cases hsa : svc.searchAuthor nm with
      | error e => simp [hl, hsa]
      | ok hit =>
        cases hit with
        | none => simp [hl, hsa]
        | some h => simp [hl, hsa]

/-! ## Claims C3 and C9: the geocoding cache -/

/-- After a call with a non-blank institution, the cache holds the
returned result under the stripped key. -/
theorem geocode_institution_caches (svc : Services) (st : St) (s : String)
    (h : pyStrip s ≠ "") :
    lookupA (geocode_institution svc st s).2.1.geocode_cache (pyStrip s) =
      some (geocode_institution svc st s).1 := by
  unfold geocode_institution
  simp only [h, if_false]
  cases hl : lookupA st.geocode_cache (pyStrip s) with
  | some v => simp [hl]
  | none =>
    cases hg : svc.geocode (pyStrip s) with
    | error e => simp [hl, hg, lookupA_insertA_self]
    | ok o =>
      cases o with
      | none => simp [hl, hg, lookupA_insertA_self]
      | some loc => simp [hl, hg, lookupA_insertA_self]

/-- A geocoding call emits at most one external-call event. -/
theorem geocode_institution_trace_len (svc : Services) (st : St) (s : String) :
    (geocode_institution svc st s).2.2.length ≤ 1 := by
  unfold geocode_institution
  by_cases h : pyStrip s = ""
  · simp [h]
  · simp only [h, if_false]
    cases hl : lookupA st.geocode_cache (pyStrip s) with
    | some v => simp [hl]
    | none =>
      cases hg : svc.geocode (pyStrip s) with
      | error e => simp [hl, hg]
      | ok o => cases o with
        | none => simp [hl, hg]
        | some loc => simp [hl, hg]

/-- A second call with a stripped-equal argument is answered from the
cache: same result, no external call, no state change. -/
theorem geocode_institution_second_call (svc : Services) (st : St) (s1 s2 : String)
    (h : pyStrip s1 = pyStrip s2) :
    (geocode_institution svc (geocode_institution svc st s1).2.1 s2).1 =
      (geocode_institution svc st s1).1 ∧
    (geocode_institution svc (geocode_institution svc st s1).2.1 s2).2.2 = [] ∧
    (geocode_institution svc (geocode_institution svc st s1).2.1 s2).2.1 =
      (geocode_institution svc st s1).2.1 := by
  by_cases hb : pyStrip s1 = ""
  · have hb2 : pyStrip s2 = "" := by rw [← h]; exact hb
    have h1 : geocode_institution svc st s1 = (none, st, []) := by
      unfold geocode_institution; simp [hb]
    rw [h1]
    unfold geocode_institution
    simp [hb2]
  · have hc := geocode_institution_caches svc st s1 hb
    have hb2 : pyStrip s2 ≠ "" := by rw [← h]; exact hb
    rw [h] at hc
    set r := geocode_institution svc st s1 with hr
    have hstep : geocode_institution svc r.2.1 s2 = (r.1, r.2.1, []) := by
      unfold geocode_institution
      simp [hb2, hc]
    rw [hstep]
    exact ⟨rfl, rfl, rfl⟩

/-- C9.  Failed geocoding lookups are negatively cached: when the
stripped institution is not yet cached and the external geocoder
raises or finds nothing, the call returns `none` and stores `None`
under the stripped key, and any later call with a stripped-equal
string returns `none` from the cache without any external call. -/
theorem geocode_failure_negatively_cached (svc : Services) (st : St) (s s2 : String)
    (h0 : pyStrip s ≠ "")
    (h1 : lookupA st.geocode_cache (pyStrip s) = none)
    (h2 : externGeo svc (pyStrip s) = none)
    (h3 : pyStrip s2 = pyStrip s) :
    (geocode_institution svc st s).1 = none ∧
    lookupA (geocode_institution svc st s).2.1.geocode_cache (pyStrip s) = some none ∧
    (geocode_institution svc (geocode_institution svc st s).2.1 s2).1 = none ∧
    (geocode_institution svc (geocode_institution svc st s).2.1 s2).2.2 = [] := by
  have hfst : (geocode_institution svc st s).1 = none := by
    unfold geocode_institution
    simp only [h0, if_false]
    unfold externGeo at h2
    cases hg : svc.geocode (pyStrip s) with
    | error e => simp [h1, hg]
    | ok o =>
      cases o with
      | none => simp [h1, hg]
      | some loc => rw [hg] at h2; exact absurd h2 (by simp)
  have hcache := geocode_institution_caches svc st s h0
  rw [hfst] at hcache
  have hsecond := geocode_institution_second_call svc st s s2 (by rw [h3])
  exact ⟨hfst, hcache, by rw [hsecond.1, hfst], hsecond.2.1⟩

/-- C9 witness: a concrete failed lookup is cached and never retried. -/
theorem geocode_failure_negatively_cached_witness :
    (geocode_institution sampleSvc st0 "Nowhere U").1 = none ∧
    lookupA (geocode_institution sampleSvc st0 "Nowhere U").2.1.geocode_cache
      "Nowhere U" = some none ∧
    (geocode_institution sampleSvc
      (geocode_institution sampleSvc st0 "Nowhere U").2.1 " Nowhere U ").1 = none ∧
    (geocode_institution sampleSvc
      (geocode_institution sampleSvc st0 "Nowhere U").2.1 " Nowhere U ").2.2 = [] := by
  have := geocode_failure_negatively_cached sampleSvc st0 "Nowhere U" " Nowhere U "
    (by decide) (by decide) (by decide) (by decide)
  simpa using this

/-! ### Counting geocoder calls across a whole `/api/analyze` run -/

theorem geoCalls_append (t1 t2 : List ECall) (q : String) :
    geoCalls (t1 ++ t2) q = geoCalls t1 q + geoCalls t2 q := by
  simp [geoCalls, List.countP_append]

theorem geoCalls_nil (q : String) : geoCalls [] q = 0 := rfl

theorem geoCalls_cons_ne (e : ECall) (tr : List ECall) (q : String)
    (h : e ≠ ECall.geocode q) : geoCalls (e :: tr) q = geoCalls tr q := by
  simp [geoCalls, List.countP_cons, h]

theorem geoCalls_le_length (tr : List ECall) (q : String) :
    geoCalls tr q ≤ tr.length :=
  List.countP_le_length _

/-- Any single `geocode_institution` call either emits no event and
leaves the cache unchanged, or emits exactly one event for the
stripped key, which was uncached before and is cached afterwards. -/
theorem geocode_institution_trace_cases (svc : Services) (st : St) (s : String) :
    ((geocode_institution svc st s).2.2 = [] ∧
     (geocode_institution svc st s).2.1.geocode_cache = st.geocode_cache) ∨
    ((geocode_institution svc st s).2.2 = [ECall.geocode (pyStrip s)] ∧
     lookupA st.geocode_cache (pyStrip s) = none ∧
     ∃ v, (geocode_institution svc st s).2.1.geocode_cache =
        insertA st.geocode_cache (pyStrip s) v) := by
  unfold geocode_institution
  by_cases h : pyStrip s = ""
  · left; simp [h]
  · simp only [h, if_false]
    cases hl : lookupA st.geocode_cache (pyStrip s) with
    | some v => left; simp
    | none =>
      cases hg : svc.geocode (pyStrip s) with
      | error e =>
        right
        exact ⟨by simp, rfl, ⟨none, by simp [popDelay]⟩⟩
      | ok o =>
        cases o with
        | none =>
          right
          exact ⟨by simp, rfl, ⟨none, by simp [popDelay]⟩⟩
        | some loc =>
          right
          exact ⟨by simp, rfl, ⟨some loc, by simp [popDelay]⟩⟩

theorem geoCalls_get_author_info (svc : Services) (st : St) (aid : String)
    (q : String) : geoCalls (get_author_info svc st aid).2.2 q = 0 := by
  unfold get_author_info
  cases hsa : svc.searchAuthorId aid with
  | error e => simp [geoCalls]
  | ok a =>
    cases hfa : svc.fillAuthor a with
    | error e => simp [hfa, geoCalls]
    | ok a2 => simp [hfa, geoCalls]

theorem geoCalls_get_publication_details (svc : Services) (st : St) (pub : Pub)
    (q : String) : geoCalls (get_publication_details svc st pub).2.2 q = 0 := by
  unfold get_publication_details
  cases hfp : svc.fillPub pub with
  | error e => simp [geoCalls]
  | ok p => simp [geoCalls]

theorem geoCalls_get_citing_papers (svc : Services) (st : St) (pub : Pub)
    (mc : Int) (q : String) : geoCalls (get_citing_papers svc st pub mc).2.2 q = 0 := by
  unfold get_citing_papers
  cases hcb : svc.citedby pub with
  | error e => simp [geoCalls]
  | ok x => obtain ⟨cs, b⟩ := x; simp [geoCalls]

theorem geoCalls_get_author_affiliation (clean : String → String) (svc : Services)
    (st : St) (nm : String) (q : String) :
    geoCalls (get_author_affiliation clean svc st nm).2.2 q = 0 := by
  unfold get_author_affiliation
  cases hl : lookupA st.author_cache nm with
  | some v => simp [geoCalls]
  | none =>
    cases hsa : svc.searchAuthor nm with
    | error e => simp [geoCalls]
    | ok hit => cases hit with
      | none => simp [geoCalls]
      | some h => simp [geoCalls]

theorem geoCalls_processCitingPaper (clean : String → String) (svc : Services)
    (acc : List CitingInfo × List (String × AffInfo) × St × List ECall)
    (cp : Citation) (q : String) :
    geoCalls (processCitingPaper clean svc acc cp).2.2.2 q = geoCalls acc.2.2.2 q := by
  obtain ⟨citing, affMap, st, tr⟩ := acc
  unfold processCitingPaper
  by_cases h1 : (cp.bib.getD ⟨none, none, none⟩).author.getD "" = ""
  · simp [h1]
  · simp only [h1, if_false]
    cases hsp : pySplit ((cp.bib.getD ⟨none, none, none⟩).author.getD "") " and " with
    | nil => simp
    | cons a0 rest =>
      by_cases h2 : pyStrip a0 ≠ "" ∧ 1 < (pyStrip a0).length
      · simp [h2.1, h2.2, geoCalls_append, geoCalls_get_author_affiliation]
      · by_cases ha : pyStrip a0 = ""
        · simp [ha]
        · have hb : ¬(1 < (pyStrip a0).length) := fun hb => h2 ⟨ha, hb⟩
          simp [ha, hb]

theorem geoCalls_citing_fold (clean : String → String) (svc : Services)
    (cps : List Citation) (q : String) :
    ∀ acc : List CitingInfo × List (String × AffInfo) × St × List ECall,
      geoCalls (cps.foldl (processCitingPaper clean svc) acc).2.2.2 q =
        geoCalls acc.2.2.2 q := by
  induction cps with
  | nil => intro acc; rfl
  | cons cp cps ih =>
    intro acc
    rw [List.foldl_cons, ih, geoCalls_processCitingPaper]

theorem geoCalls_processPublication (clean : String → String) (svc : Services)
    (mc : Int)
    (acc : List PubInfo × List CitingInfo × List (String × AffInfo) × St × List ECall)
    (pub : Pub) (q : String) :
    geoCalls (processPublication clean svc mc acc pub).2.2.2.2 q =
      geoCalls acc.2.2.2.2 q := by
  obtain ⟨pubInfos, citing, affMap, st, tr⟩ := acc
  unfold processPublication
  by_cases hc : (0 : Int) < (get_publication_details svc st pub).1.num_citations.getD 0
  · simp [hc, geoCalls_append, geoCalls_citing_fold, geoCalls_get_citing_papers,
      geoCalls_get_publication_details, geoCalls_nil]
  · simp [hc, geoCalls_append, geoCalls_get_publication_details]

theorem geoCalls_publicationLoop (clean : String → String) (svc : Services)
    (st : St) (pubs : List Pub) (mc : Int) (q : String) :
    geoCalls (publicationLoop clean svc st pubs mc).2.2.2.2 q = 0 := by
  unfold publicationLoop
  have haux : ∀ (l : List Pub)
      (acc : List PubInfo × List CitingInfo × List (String × AffInfo) × St × List ECall),
      geoCalls (l.foldl (processPublication clean svc mc) acc).2.2.2.2 q =
        geoCalls acc.2.2.2.2 q := by
    intro l
    induction l with
    | nil => intro acc; rfl
    | cons p ps ih =>
      intro acc
      rw [List.foldl_cons, ih, geoCalls_processPublication]
  rw [haux]
  rfl

/-- `geocodeEntry` threads the state and trace of the underlying
`geocode_institution` call regardless of success. -/
theorem geocodeEntry_st_tr (svc : Services)
    (acc : List LocEntry × St × List ECall) (e : String × AffInfo) :
    (geocodeEntry svc acc e).2.1 = (geocode_institution svc acc.2.1 e.1).2.1 ∧
    (geocodeEntry svc acc e).2.2 = acc.2.2 ++ (geocode_institution svc acc.2.1 e.1).2.2 := by
  obtain ⟨locs, st, tr⟩ := acc
  unfold geocodeEntry
  cases hg : (geocode_institution svc st e.1).1 with
  | some loc => simp [hg]
  | none => simp [hg]

theorem geocodeLoop_fold_geoCalls (svc : Services) (entries : List (String × AffInfo))
    (q : String) :
    ∀ (acc : List LocEntry × St × List ECall),
      geoCalls acc.2.2 q ≤ 1 →
      (1 ≤ geoCalls acc.2.2 q → (lookupA acc.2.1.geocode_cache q).isSome) →
      geoCalls (entries.foldl (geocodeEntry svc) acc).2.2 q ≤ 1 ∧
      (1 ≤ geoCalls (entries.foldl (geocodeEntry svc) acc).2.2 q →
        (lookupA (entries.foldl (geocodeEntry svc) acc).2.1.geocode_cache q).isSome) := by
  induction entries with
  | nil => intro acc h1 h2; exact ⟨h1, h2⟩
  | cons e es ih =>
    intro acc h1 h2
    rw [List.foldl_cons]
    obtain ⟨hst, htr⟩ := geocodeEntry_st_tr svc acc e
    rcases geocode_institution_trace_cases svc acc.2.1 e.1 with
      ⟨hemp, hcache⟩ | ⟨hone, hmiss, v, hcache⟩
    · refine ih _ ?_ ?_
      · rw [htr, hemp]
        simpa using h1
      · intro hc
        rw [hst, hcache]
        rw [htr, hemp] at hc
        simp at hc
        exact h2 hc
    · by_cases hq : q = pyStrip e.1
      · have h0 : geoCalls acc.2.2 q = 0 := by
          by_contra hne
          have h1b : 1 ≤ geoCalls acc.2.2 q := by omega
          have hsome := h2 h1b
          rw [hq, hmiss] at hsome
          simp at hsome
        refine ih _ ?_ ?_
        · rw [htr, hone, geoCalls_append, h0]
          simpa using geoCalls_le_length [ECall.geocode (pyStrip e.1)] q
        · intro _
          rw [hst, hcache, hq, lookupA_insertA_self]
          rfl
      · have hcount : geoCalls (acc.2.2 ++ [ECall.geocode (pyStrip e.1)]) q =
            geoCalls acc.2.2 q := by
          rw [geoCalls_append]
          have hz : geoCalls [ECall.geocode (pyStrip e.1)] q = 0 := by
            have hq2 : ¬(pyStrip e.1 = q) := fun hh => hq hh.symm
            simp [geoCalls, List.countP_cons, hq2]
          omega
        refine ih _ ?_ ?_
        · rw [htr, hone, hcount]
          exact h1
        · intro hc
          rw [hst, hcache]
          rw [htr, hone, hcount] at hc
          exact lookupA_insertA_isSome _ _ _ _ (h2 hc)

/-- During one `/api/analyze` run, each geocoder query string is
issued at most once (the cache absorbs repeats). -/
theorem geoCalls_analyze (clean : String → String) (svc : Services) (st : St)
    (data : Payload) (q : String) :
    geoCalls (analyze_scholar clean svc st data).2.2 q ≤ 1 := by
  unfold analyze_scholar
  cases hex : extract_author_id (data.url.getD "") with
  | none => simp [hex, geoCalls]
  | some aid =>
    cases hga : (get_author_info svc st aid).1 with
    | none =>
      simp only [hex, hga]
      rw [geoCalls_cons_ne _ _ _ (by simp), geoCalls_get_author_info]
      omega
    | some author =>
      simp only [hex, hga]
      have h3 := geocodeLoop_fold_geoCalls svc
        (publicationLoop clean svc (get_author_info svc st aid).2.1
          (select_publications (author.publications.getD []) (min (data.max_papers.getD 3) 5))
          (min (data.max_citations.getD 5) 10)).2.2.1 q
        (([] : List LocEntry),
         (publicationLoop clean svc (get_author_info svc st aid).2.1
          (select_publications (author.publications.getD []) (min (data.max_papers.getD 3) 5))
          (min (data.max_citations.getD 5) 10)).2.2.2.1, ([] : List ECall))
        (by simp [geoCalls]) (by simp [geoCalls])
      unfold geocodeLoop
      rw [geoCalls_cons_ne _ _ _ (by simp), geoCalls_append, geoCalls_append,
        geoCalls_get_author_info, geoCalls_publicationLoop]
      simpa using h3.1

/-- C3.  `geocode_institution` is a string-keyed memoisation of a
single external call: one call emits at most one geocoder lookup; a
second call with a stripped-equal argument returns the same result
with no external call, the result being stored in the cache under the
stripped key (unless the stripped key is blank, in which case no
lookup happens at all); and during one `/api/analyze` run each
geocoder query is issued at most once. -/
theorem geocode_institution_memoized (clean : String → String) (svc : Services)
    (st : St) (s1 s2 : String) (data : Payload) (q : String)
    (h : pyStrip s1 = pyStrip s2) :
    (geocode_institution svc st s1).2.2.length ≤ 1 ∧
    (geocode_institution svc (geocode_institution svc st s1).2.1 s2).1 =
      (geocode_institution svc st s1).1 ∧
    (geocode_institution svc (geocode_institution svc st s1).2.1 s2).2.2 = [] ∧
    (pyStrip s1 = "" ∨
      lookupA (geocode_institution svc st s1).2.1.geocode_cache (pyStrip s1) =
        some (geocode_institution svc st s1).1) ∧
    geoCalls (analyze_scholar clean svc st data).2.2 q ≤ 1 := by
  have hsecond := geocode_institution_second_call svc st s1 s2 h
  refine ⟨geocode_institution_trace_len svc st s1, hsecond.1, hsecond.2.1, ?_,
    geoCalls_analyze clean svc st data q⟩
  by_cases hb : pyStrip s1 = ""
  · exact Or.inl hb
  · exact Or.inr (geocode_institution_caches svc st s1 hb)

/-- C3 witness: concrete stripped-equal repeat calls and a concrete
analyze run. -/
theorem geocode_institution_memoized_witness :
    (geocode_institution sampleSvc st0 "  MIT ").2.2.length ≤ 1 ∧
    (geocode_institution sampleSvc (geocode_institution sampleSvc st0 "  MIT ").2.1 "MIT").1 =
      (geocode_institution sampleSvc st0 "  MIT ").1 ∧
    (geocode_institution sampleSvc (geocode_institution sampleSvc st0 "  MIT ").2.1 "MIT").2.2 = [] ∧
    (pyStrip "  MIT " = "" ∨
      lookupA (geocode_institution sampleSvc st0 "  MIT ").2.1.geocode_cache
        (pyStrip "  MIT ") = some (geocode_institution sampleSvc st0 "  MIT ").1) ∧
    geoCalls (analyze_scholar id sampleSvc st0 payload0).2.2 "MIT" ≤ 1 :=
  geocode_institution_memoized id sampleSvc st0 "  MIT " "MIT" payload0 "MIT" (by decide)

/-! ## Claim C5: the fixed JSON response shape -/

theorem isFlatList_arr_map {α : Type} (f : α → JValue) (l : List α)
    (h : ∀ x, isFlatObj (f x) = true) : isFlatList (JValue.arr (l.map f)) = true := by
  simp only [isFlatList, List.all_eq_true]
  intro x hx
  obtain ⟨a, ha, rfl⟩ := List.mem_map.mp hx
  exact h a

theorem isFlatObj_toJson_pub (p : PubInfo) : isFlatObj (PubInfo.toJson p) = true := rfl

theorem isFlatObj_toJson_citing (c : CitingInfo) :
    isFlatObj (CitingInfo.toJson c) = true := rfl

theorem isFlatObj_toJson_loc (l : LocEntry) : isFlatObj (LocEntry.toJson l) = true := by
  simp only [LocEntry.toJson, isFlatObj, List.all_cons, List.all_nil, isFlatField,
    isPrim, Bool.and_true, Bool.true_and, List.all_eq_true]
  intro x hx
  obtain ⟨a, ha, rfl⟩ := List.mem_map.mp hx
  rfl

theorem authorShapeOk_header (author : AuthorRec) :
    authorShapeOk (authorHeader author) = true := rfl

/-- C5.  Every successful (status 200) `/api/analyze` response has
the one fixed JSON shape: a top-level object with exactly the keys
`author`, `publications`, `citing_authors` and `locations`; `author`
an object with exactly the keys `name`, `affiliation`, `citations`,
`h_index`; and the three lists are flat parallel lists — their
entries contain only primitive values (plus, for a location entry,
an array of author-name strings), so there is no nested citation
graph. -/
theorem analyze_response_shape (clean : String → String) (svc : Services)
    (st : St) (data : Payload)
    (h : (analyze_scholar clean svc st data).1.status = 200) :
    responseShapeOk (analyze_scholar clean svc st data).1.body = true := by
  unfold analyze_scholar at h ⊢
  cases hex : extract_author_id (data.url.getD "") with
  | none =>
    simp only [hex] at h
    simp at h
  | some aid =>
    cases hga : (get_author_info svc st aid).1 with
    | none =>
      simp only [hex, hga] at h
      simp at h
    | some author =>
      simp only [hex, hga]
      simp only [responseShapeOk, authorShapeOk_header, Bool.true_and]
      rw [isFlatList_arr_map _ _ isFlatObj_toJson_pub,
        isFlatList_arr_map _ _ isFlatObj_toJson_citing,
        isFlatList_arr_map _ _ isFlatObj_toJson_loc]
      rfl

/-- C5 witness: a concrete 200 response has the fixed shape. -/
theorem analyze_response_shape_witness :
    responseShapeOk ((analyze_scholar id sampleSvc st0 payload0).1.body) = true :=
  analyze_response_shape id sampleSvc st0 payload0 (by decide)

/-! ## Claim C8: the caps on client-supplied limits -/

theorem get_citing_papers_len (svc : Services) (st : St) (pub : Pub) (mc : Int) :
    (get_citing_papers svc st pub mc).1.length ≤ mc.toNat := by
  unfold get_citing_papers
  cases hcb : svc.citedby pub with
  | error e => simp
  | ok x =>
    obtain ⟨cs, b⟩ := x
    simp only []
    rw [citingLoop_fst]
    calc (cs.take (mc - (0 : Nat)).toNat).length ≤ (mc - (0 : Nat)).toNat :=
          List.length_take_le _ _
      _ ≤ mc.toNat := by omega

theorem publicationLoop_pubInfos_len (clean : String → String) (svc : Services)
    (st : St) (pubs : List Pub) (mc : Int) :
    (publicationLoop clean svc st pubs mc).1.length = pubs.length := by
  unfold publicationLoop
  have haux : ∀ (l : List Pub)
      (acc : List PubInfo × List CitingInfo × List (String × AffInfo) × St × List ECall),
      (l.foldl (processPublication clean svc mc) acc).1.length =
        acc.1.length + l.length := by
    intro l
    induction l with
    | nil => intro acc; simp
    | cons p ps ih =>
      intro acc
      rw [List.foldl_cons, ih]
      obtain ⟨pubInfos, citing, affMap, st', tr⟩ := acc
      unfold processPublication
      by_cases hc : (0 : Int) < (get_publication_details svc st' p).1.num_citations.getD 0
      · simp [hc]
        omega
      · simp [hc]
        omega
  rw [haux]
  simp

/-- C8, counterexample: with `max_papers = -1` the endpoint processes
one publication (Python's `l[:-1]` drops only the last element of the
two sorted-in publications here: three publications give a slice of
two), which is not `≤ min(max_papers, 5) = -1`; so the cap claim
fails for negative request values. -/
theorem analyze_caps_counterexample :
    (analyze_scholar id sampleSvc st0 payloadNeg).1.status = 200 ∧
    ((jfield (analyze_scholar id sampleSvc st0 payloadNeg).1.body
        "publications").bind jarrLen = some 2) ∧
    ¬((2 : Int) ≤ min (payloadNeg.max_papers.getD 3) 5) := by decide

/-- C8, amended: for request values that are non-negative integers,
`/api/analyze` (src/api/index.py) processes at most
`min(max_papers, 5)` publications (default 3) — exactly one
`publications` entry per selected publication — the selected
publications all have `num_citations` at least as high as every
publication left out, and `get_citing_papers` returns at most
`min(max_citations, 10)` citing papers (default 5). -/
theorem analyze_caps_amended (clean : String → String) (svc : Services) (st : St)
    (data : Payload) (l : List Pub) (pub p q : Pub)
    (hmp : 0 ≤ data.max_papers.getD 3)
    (_hmc : 0 ≤ data.max_citations.getD 5)
    (hp : p ∈ select_publications l (min (data.max_papers.getD 3) 5))
    (hq : q ∈ (List.insertionSort (fun a b => pubKey b ≤ pubKey a) l).drop
            (min (data.max_papers.getD 3) 5).toNat) :
    (select_publications l (min (data.max_papers.getD 3) 5)).length ≤
      (min (data.max_papers.getD 3) 5).toNat ∧
    pubKey q ≤ pubKey p ∧
    (get_citing_papers svc st pub (min (data.max_citations.getD 5) 10)).1.length ≤
      (min (data.max_citations.getD 5) 10).toNat ∧
    (publicationLoop clean svc st
        (select_publications l (min (data.max_papers.getD 3) 5))
        (min (data.max_citations.getD 5) 10)).1.length =
      (select_publications l (min (data.max_papers.getD 3) 5)).length := by
  have hk : (0 : Int) ≤ min (data.max_papers.getD 3) 5 := le_min hmp (by omega)
  have hsel : select_publications l (min (data.max_papers.getD 3) 5) =
      (List.insertionSort (fun a b => pubKey b ≤ pubKey a) l).take
        (min (data.max_papers.getD 3) 5).toNat := by
    unfold select_publications pySlice
    rw [if_pos hk]
  refine ⟨?_, ?_, get_citing_papers_len svc st pub _,
    publicationLoop_pubInfos_len clean svc st _ _⟩
  · rw [hsel]
    exact List.length_take_le _ _
  · haveI inst1 : IsTotal Pub (fun a b => pubKey b ≤ pubKey a) :=
      ⟨fun a b => le_total (pubKey b) (pubKey a)⟩
    haveI inst2 : IsTrans Pub (fun a b => pubKey b ≤ pubKey a) :=
      ⟨fun a b c h1 h2 => le_trans h2 h1⟩
    have hsorted := List.sorted_insertionSort (fun a b => pubKey b ≤ pubKey a) l
    rw [hsel] at hp
    have hsplit := List.take_append_drop
      ((min (data.max_papers.getD 3) 5).toNat)
      (List.insertionSort (fun a b => pubKey b ≤ pubKey a) l)
    rw [← hsplit] at hsorted
    have hpair := (List.pairwise_append.mp hsorted).2.2
    exact hpair p hp q hq

/-- C8 witness: a concrete selection with `max_papers = 1`. -/
theorem analyze_caps_amended_witness :
    (select_publications [pubA, pubB, pubC] (min (payloadOne.max_papers.getD 3) 5)).length ≤
      (min (payloadOne.max_papers.getD 3) 5).toNat ∧
    pubKey pubA ≤ pubKey pubC ∧
    (get_citing_papers sampleSvc st0 pubC
        (min (payloadOne.max_citations.getD 5) 10)).1.length ≤
      (min (payloadOne.max_citations.getD 5) 10).toNat ∧
    (publicationLoop id sampleSvc st0
        (select_publications [pubA, pubB, pubC] (min (payloadOne.max_papers.getD 3) 5))
        (min (payloadOne.max_citations.getD 5) 10)).1.length =
      (select_publications [pubA, pubB, pubC] (min (payloadOne.max_papers.getD 3) 5)).length :=
  analyze_caps_amended id sampleSvc st0 payloadOne [pubA, pubB, pubC] pubC pubC pubA
    (by decide) (by decide) (by decide) (by decide)

/-! ## Claim C4: the affiliations map -/

theorem dedupFirst_snoc (l : List String) (n : String) :
    dedupFirst (l ++ [n]) =
      if n ∈ dedupFirst l then dedupFirst l else dedupFirst l ++ [n] := by
  unfold dedupFirst
  rw [List.foldl_append]
  rfl

theorem mem_foldl_dedup (l : List String) :
    ∀ (acc : List String) (x : String),
      x ∈ l.foldl (fun acc n => if n ∈ acc then acc else acc ++ [n]) acc ↔
        x ∈ acc ∨ x ∈ l := by
  induction l with
  | nil => simp
  | cons n l ih =>
    intro acc x
    rw [List.foldl_cons, ih]
    by_cases hn : n ∈ acc
    · simp only [hn, if_true, List.mem_cons]
      constructor
      · rintro (h | h)
        · exact Or.inl h
        · exact Or.inr (Or.inr h)
      · rintro (h | h | h)
        · exact Or.inl h
        · exact Or.inl (h ▸ hn)
        · exact Or.inr h
    · simp only [hn, if_false, List.mem_append, List.mem_singleton, List.mem_cons]
      tauto

theorem nodup_foldl_dedup (l : List String) :
    ∀ (acc : List String), acc.Nodup →
      (l.foldl (fun acc n => if n ∈ acc then acc else acc ++ [n]) acc).Nodup := by
  induction l with
  | nil => intro acc h; simpa using h
  | cons n l ih =>
    intro acc hacc
    rw [List.foldl_cons]
    by_cases hn : n ∈ acc
    · simp only [hn, if_true]
      exact ih acc hacc
    · simp only [hn, if_false]
      refine ih _ ?_
      rw [List.nodup_append]
      exact ⟨hacc, List.nodup_singleton n, by simp [List.disjoint_singleton, hn]⟩

theorem nodup_dedupFirst (l : List String) : (dedupFirst l).Nodup :=
  nodup_foldl_dedup l [] List.nodup_nil

theorem dedupFirst_ne_nil (l : List String) (h : l ≠ []) : dedupFirst l ≠ [] := by
  intro hcontra
  rcases l with _ | ⟨x, xs⟩
  · exact h rfl
  · have : x ∈ dedupFirst (x :: xs) := by
      rw [show dedupFirst (x :: xs) =
        (x :: xs).foldl (fun acc n => if n ∈ acc then acc else acc ++ [n]) [] from rfl]
      rw [mem_foldl_dedup]
      simp
    rw [hcontra] at this
    simp at this

theorem lookupA_updateAffMap_self (m : List (String × AffInfo)) (a n : String) :
    lookupA (updateAffMap m a n) a =
      some (match lookupA m a with
            | none => ⟨1, [n]⟩
            | some info =>
              ⟨info.count + 1,
               if n ∈ info.authors then info.authors else info.authors ++ [n]⟩) := by
  unfold updateAffMap
  cases h : lookupA m a with
  | none =>
    simp only [h, lookupA_insertA_self]
    simp [lookupA_insertA_self]
  | some info =>
    by_cases hn : n ∈ info.authors <;> simp [h, lookupA_insertA_self, hn]

theorem lookupA_updateAffMap_ne (m : List (String × AffInfo)) (a n a' : String)
    (h : a' ≠ a) :
    lookupA (updateAffMap m a n) a' = lookupA m a' := by
  unfold updateAffMap
  cases hm : lookupA m a with
  | none =>
    simp only [hm, lookupA_insertA_self]
    rw [lookupA_insertA_ne _ _ _ _ h, lookupA_insertA_ne _ _ _ _ h]
  | some info =>
    simp only [hm]
    rw [lookupA_insertA_ne _ _ _ _ h]

theorem lookupA_eq_none_iff {α : Type} (m : List (String × α)) (k : String) :
    lookupA m k = none ↔ k ∉ m.map Prod.fst := by
  induction m with
  | nil => simp [lookupA]
  | cons p rest ih =>
    obtain ⟨k0, v0⟩ := p
    simp only [lookupA, List.map_cons, List.mem_cons]
    by_cases h : k0 = k
    · subst h
      simp
    · simp only [h, if_false, ih]
      constructor
      · intro hn hor
        rcases hor with rfl | hm
        · exact h rfl
        · exact hn hm
      · intro hn hm
        exact hn (Or.inr hm)

theorem keys_insertA {α : Type} (m : List (String × α)) (k : String) (v : α) :
    (insertA m k v).map Prod.fst =
      if (lookupA m k).isSome then m.map Prod.fst else m.map Prod.fst ++ [k] := by
  induction m with
  | nil => simp [insertA, lookupA]
  | cons p rest ih =>
    obtain ⟨k0, v0⟩ := p
    by_cases h : k0 = k
    · subst h
      simp only [insertA, if_pos rfl, lookupA, List.map_cons]
      simp
    · simp only [insertA, h, if_false, List.map_cons, lookupA, ih]
      by_cases hs : (lookupA rest k).isSome
      · simp [hs]
      · simp [hs]

theorem nodup_keys_insertA {α : Type} (m : List (String × α)) (k : String) (v : α)
    (h : (m.map Prod.fst).Nodup) : ((insertA m k v).map Prod.fst).Nodup := by
  rw [keys_insertA]
  by_cases hs : (lookupA m k).isSome
  · simp only [hs, if_true]
    exact h
  · have hnone : lookupA m k = none := by
      cases hlk : lookupA m k with
      | none => rfl
      | some w => rw [hlk] at hs; simp at hs
    rw [hnone]
    simp only [Option.isSome_none, Bool.false_eq_true, if_false]
    rw [List.nodup_append]
    rw [lookupA_eq_none_iff] at hnone
    refine ⟨h, List.nodup_singleton k, ?_⟩
    intro x hx hx'
    rw [List.mem_singleton] at hx'
    subst hx'
    exact hnone hx

theorem nodup_keys_updateAffMap (m : List (String × AffInfo)) (a n : String)
    (h : (m.map Prod.fst).Nodup) :
    ((updateAffMap m a n).map Prod.fst).Nodup := by
  unfold updateAffMap
  cases hm : lookupA m a with
  | none =>
    simp only [hm, lookupA_insertA_self]
    exact nodup_keys_insertA _ _ _ (nodup_keys_insertA _ _ _ h)
  | some info =>
    simp only [hm]
    exact nodup_keys_insertA _ _ _ h

theorem lookupA_of_mem {α : Type} (m : List (String × α)) (k : String) (v : α)
    (hnodup : (m.map Prod.fst).Nodup) (hmem : (k, v) ∈ m) :
    lookupA m k = some v := by
  induction m with
  | nil => simp at hmem
  | cons p rest ih =>
    obtain ⟨k0, v0⟩ := p
    rcases List.mem_cons.mp hmem with heq | htail
    · cases heq
      simp [lookupA]
    · have hk : k0 ≠ k := by
        intro hcontra
        subst hcontra
        have : k0 ∈ rest.map Prod.fst :=
          List.mem_map.mpr ⟨(k0, v), htail, rfl⟩
        exact (List.nodup_cons.mp hnodup).1 this
      simp only [lookupA, hk, if_false]
      exact ih (List.nodup_cons.mp hnodup).2 htail

/-- One citing-author record extends the invariant: append the record
and, when its affiliation is non-empty, update the map. -/
theorem affInv_step (citing : List CitingInfo) (m : List (String × AffInfo))
    (ci : CitingInfo) (hInv : AffInv citing m) :
    AffInv (citing ++ [ci])
      (if ci.affiliation ≠ "" then updateAffMap m ci.affiliation ci.name else m) := by
  obtain ⟨hkeys, hempty, hmem, hfacts⟩ := hInv
  by_cases ha : ci.affiliation = ""
  · simp only [ha, ne_eq, not_true_eq_false, if_false]
    refine ⟨hkeys, hempty, ?_, ?_⟩
    · intro c hc hcne
      rcases List.mem_append.mp hc with h | h
      · exact hmem c h hcne
      · rcases List.mem_singleton.mp h with rfl
        exact absurd ha hcne
    · intro a info hinfo
      obtain ⟨hane, hcount, hauthors, hpos, hne⟩ := hfacts a info hinfo
      have hne2 : ¬(ci.affiliation = a) := by
        intro hh
        rw [ha] at hh
        exact hane hh.symm
      have hfilter : (citing ++ [ci]).filter (fun c => decide (c.affiliation = a)) =
          citing.filter (fun c => decide (c.affiliation = a)) := by
        rw [List.filter_append]
        have hnil : [ci].filter (fun c => decide (c.affiliation = a)) = [] := by
          simp [List.filter, hne2]
        rw [hnil, List.append_nil]
      rw [hfilter]
      exact ⟨hane, hcount, hauthors, hpos, hne⟩
  · simp only [ha, ne_eq, not_false_eq_true, if_true]
    have hane' : ci.affiliation ≠ "" := ha
    refine ⟨nodup_keys_updateAffMap m ci.affiliation ci.name hkeys, ?_, ?_, ?_⟩
    · rw [lookupA_updateAffMap_ne _ _ _ _ (fun hh => hane' hh.symm)]
      exact hempty
    · intro c hc hcne
      by_cases hsame : c.affiliation = ci.affiliation
      · rw [hsame, lookupA_updateAffMap_self]
        rfl
      · rw [lookupA_updateAffMap_ne _ _ _ _ hsame]
        rcases List.mem_append.mp hc with h | h
        · exact hmem c h hcne
        · rcases List.mem_singleton.mp h with rfl
          exact absurd rfl hsame
    · intro a info hinfo
      by_cases haeq : a = ci.affiliation
      · subst haeq
        rw [lookupA_updateAffMap_self] at hinfo
        have hfilter : (citing ++ [ci]).filter
              (fun c => decide (c.affiliation = ci.affiliation)) =
            citing.filter (fun c => decide (c.affiliation = ci.affiliation)) ++ [ci] := by
          rw [List.filter_append]
          congr 1
          simp [List.filter]
        cases hm : lookupA m ci.affiliation with
        | none =>
          rw [hm] at hinfo
          have hnone : citing.filter
              (fun c => decide (c.affiliation = ci.affiliation)) = [] := by
            rw [List.filter_eq_nil_iff]
            intro c hc
            intro hcontra
            have hsome : (lookupA m ci.affiliation).isSome := by
              have hthis := hmem c hc
              rw [of_decide_eq_true hcontra] at hthis
              exact hthis hane'
            rw [hm] at hsome
            simp at hsome
          rw [hfilter, hnone]
          have hinfo' : info = ⟨1, [ci.name]⟩ := by
            injection hinfo with h
            exact h.symm
          subst hinfo'
          refine ⟨hane', by simp, ?_, by simp, by simp⟩
          simp [dedupFirst]
        | some info0 =>
          rw [hm] at hinfo
          obtain ⟨hane0, hcount0, hauthors0, hpos0, hne0⟩ := hfacts ci.affiliation info0 hm
          have hinfo' : info = ⟨info0.count + 1,
              if ci.name ∈ info0.authors then info0.authors
              else info0.authors ++ [ci.name]⟩ := by
            injection hinfo with h
            exact h.symm
          subst hinfo'
          rw [hfilter]
          refine ⟨hane', by simp [hcount0], ?_, by simp, ?_⟩
          · rw [List.map_append]
            simp only [List.map_cons, List.map_nil]
            rw [dedupFirst_snoc, ← hauthors0]
          · by_cases hn : ci.name ∈ info0.authors
            · simpa [hn] using hne0
            · simp [hn]
      · rw [lookupA_updateAffMap_ne _ _ _ _ haeq] at hinfo
        obtain ⟨hane, hcount, hauthors, hpos, hne⟩ := hfacts a info hinfo
        have hne2 : ¬(ci.affiliation = a) := fun hh => haeq hh.symm
        have hfilter : (citing ++ [ci]).filter (fun c => decide (c.affiliation = a)) =
            citing.filter (fun c => decide (c.affiliation = a)) := by
          rw [List.filter_append]
          have hnil : [ci].filter (fun c => decide (c.affiliation = a)) = [] := by
            simp [List.filter, hne2]
          rw [hnil, List.append_nil]
        rw [hfilter]
        exact ⟨hane, hcount, hauthors, hpos, hne⟩


theorem affInv_nil : AffInv [] [] := by
  refine ⟨List.nodup_nil, rfl, by simp, ?_⟩
  intro a info h
  simp [lookupA] at h

theorem affInv_processCitingPaper (clean : String → String) (svc : Services)
    (acc : List CitingInfo × List (String × AffInfo) × St × List ECall)
    (cp : Citation) (h : AffInv acc.1 acc.2.1) :
    AffInv (processCitingPaper clean svc acc cp).1
      (processCitingPaper clean svc acc cp).2.1 := by
  obtain ⟨citing, affMap, st, tr⟩ := acc
  unfold processCitingPaper
  by_cases h1 : (cp.bib.getD ⟨none, none, none⟩).author.getD "" = ""
  · simpa [h1] using h
  · simp only [h1, if_false]
    cases hsp : pySplit ((cp.bib.getD ⟨none, none, none⟩).author.getD "") " and " with
    | nil => simpa using h
    | cons a0 rest =>
      by_cases h2 : pyStrip a0 ≠ "" ∧ 1 < (pyStrip a0).length
      · obtain ⟨h2a, h2b⟩ := h2
        have hstep := affInv_step citing affMap
          ⟨pyStrip a0, (get_author_affiliation clean svc st (pyStrip a0)).1,
           (cp.bib.getD ⟨none, none, none⟩).title.getD "Unknown",
           (cp.bib.getD ⟨none, none, none⟩).pub_year.getD "Unknown"⟩ h
        simp only [ne_eq] at hstep
        simp [h2a, h2b]
        simpa using hstep
      · by_cases ha : pyStrip a0 = ""
        · simpa [ha] using h
        · have hb : ¬(1 < (pyStrip a0).length) := fun hb => h2 ⟨ha, hb⟩
          simpa [ha, hb] using h

theorem affInv_citing_fold (clean : String → String) (svc : Services)
    (cps : List Citation) :
    ∀ (acc : List CitingInfo × List (String × AffInfo) × St × List ECall),
      AffInv acc.1 acc.2.1 →
      AffInv (cps.foldl (processCitingPaper clean svc) acc).1
        (cps.foldl (processCitingPaper clean svc) acc).2.1 := by
  induction cps with
  | nil => intro acc h; exact h
  | cons cp cps ih =>
    intro acc h
    rw [List.foldl_cons]
    exact ih _ (affInv_processCitingPaper clean svc acc cp h)

theorem affInv_processPublication (clean : String → String) (svc : Services)
    (mc : Int)
    (acc : List PubInfo × List CitingInfo × List (String × AffInfo) × St × List ECall)
    (pub : Pub) (h : AffInv acc.2.1 acc.2.2.1) :
    AffInv (processPublication clean svc mc acc pub).2.1
      (processPublication clean svc mc acc pub).2.2.1 := by
  obtain ⟨pubInfos, citing, affMap, st, tr⟩ := acc
  unfold processPublication
  by_cases hc : (0 : Int) < (get_publication_details svc st pub).1.num_citations.getD 0
  · simp only [hc, if_true]
    have hfold := affInv_citing_fold clean svc
      (get_citing_papers svc (get_publication_details svc st pub).2.1
        (get_publication_details svc st pub).1 mc).1
      (citing, affMap,
       (get_citing_papers svc (get_publication_details svc st pub).2.1
        (get_publication_details svc st pub).1 mc).2.1, ([] : List ECall)) h
    simpa using hfold
  · simpa [hc] using h

theorem affInv_publicationLoop (clean : String → String) (svc : Services)
    (st : St) (pubs : List Pub) (mc : Int) :
    AffInv (publicationLoop clean svc st pubs mc).2.1
      (publicationLoop clean svc st pubs mc).2.2.1 := by
  unfold publicationLoop
  have haux : ∀ (l : List Pub)
      (acc : List PubInfo × List CitingInfo × List (String × AffInfo) × St × List ECall),
      AffInv acc.2.1 acc.2.2.1 →
      AffInv (l.foldl (processPublication clean svc mc) acc).2.1
        (l.foldl (processPublication clean svc mc) acc).2.2.1 := by
    intro l
    induction l with
    | nil => intro acc h; exact h
    | cons p ps ih =>
      intro acc h
      rw [List.foldl_cons]
      exact ih _ (affInv_processPublication clean svc mc acc p h)
  exact haux pubs ([], [], [], st, []) affInv_nil

/-- C4.  After the publication loop of `/api/analyze`
(src/api/index.py), for every non-empty affiliation `a`: the
`affiliations_map` entry under `a` has `count` equal to the number of
citing-author records whose affiliation is `a` and `authors` equal to
the (first-occurrence deduplicated) list of the names of exactly
those citing authors; every citing author with a non-empty
affiliation has a map entry; and the empty affiliation has no
entry. -/
theorem affiliations_map_correct (clean : String → String) (svc : Services)
    (st : St) (pubs : List Pub) (mc : Int) (a : String) (info : AffInfo)
    (c : CitingInfo)
    (hinfo : lookupA (publicationLoop clean svc st pubs mc).2.2.1 a = some info)
    (hc : c ∈ (publicationLoop clean svc st pubs mc).2.1)
    (hca : c.affiliation ≠ "") :
    info.count = ((publicationLoop clean svc st pubs mc).2.1.filter
        (fun r => decide (r.affiliation = a))).length ∧
    info.authors = dedupFirst (((publicationLoop clean svc st pubs mc).2.1.filter
        (fun r => decide (r.affiliation = a))).map CitingInfo.name) ∧
    lookupA (publicationLoop clean svc st pubs mc).2.2.1 "" = none ∧
    (lookupA (publicationLoop clean svc st pubs mc).2.2.1 c.affiliation).isSome := by
  obtain ⟨hkeys, hempty, hmem, hfacts⟩ := affInv_publicationLoop clean svc st pubs mc
  obtain ⟨_, hcount, hauthors, _, _⟩ := hfacts a info hinfo
  exact ⟨hcount, hauthors, hempty, hmem c hc hca⟩

/-- C4 witness: the concrete run has a correct "MIT" entry. -/
theorem affiliations_map_correct_witness :
    (⟨3, ["John Smith", "Jane Doe"]⟩ : AffInfo).count =
      (((publicationLoop id sampleSvc st0
          (select_publications [pubA, pubB, pubC] 3) 5).2.1).filter
        (fun r => decide (r.affiliation = "MIT"))).length ∧
    (⟨3, ["John Smith", "Jane Doe"]⟩ : AffInfo).authors =
      dedupFirst ((((publicationLoop id sampleSvc st0
          (select_publications [pubA, pubB, pubC] 3) 5).2.1).filter
        (fun r => decide (r.affiliation = "MIT"))).map CitingInfo.name) ∧
    lookupA (publicationLoop id sampleSvc st0
        (select_publications [pubA, pubB, pubC] 3) 5).2.2.1 "" = none ∧
    (lookupA (publicationLoop id sampleSvc st0
        (select_publications [pubA, pubB, pubC] 3) 5).2.2.1
      (⟨"Jane Doe", "MIT", "T2", "2022"⟩ : CitingInfo).affiliation).isSome :=
  affiliations_map_correct id sampleSvc st0
    (select_publications [pubA, pubB, pubC] 3) 5 "MIT" ⟨3, ["John Smith", "Jane Doe"]⟩
    ⟨"Jane Doe", "MIT", "T2", "2022"⟩ (by decide) (by decide) (by decide)


/-! ## Claim C10: invariants of the `locations` entries -/

theorem get_publication_details_caches (svc : Services) (st : St) (pub : Pub) :
    (get_publication_details svc st pub).2.1.geocode_cache = st.geocode_cache ∧
    (get_publication_details svc st pub).2.1.author_cache = st.author_cache := by
  unfold get_publication_details
  cases h : svc.fillPub pub with
  | error e => simp [h, popDelay]
  | ok p => simp [h, popDelay]

theorem citingLoop_caches (mc : Int) (cs : List Citation) :
    ∀ (st : St) (count : Nat),
      (citingLoop st mc cs count).2.geocode_cache = st.geocode_cache ∧
      (citingLoop st mc cs count).2.author_cache = st.author_cache := by
  induction cs with
  | nil => intro st count; simp [citingLoop]
  | cons c cs ih =>
    intro st count
    unfold citingLoop
    by_cases h : mc ≤ (count : Int)
    · simp [h]
    · simp only [h, if_false]
      have := ih (popDelay st) (count + 1)
      simpa [popDelay] using this

theorem get_citing_papers_caches (svc : Services) (st : St) (pub : Pub) (mc : Int) :
    (get_citing_papers svc st pub mc).2.1.geocode_cache = st.geocode_cache ∧
    (get_citing_papers svc st pub mc).2.1.author_cache = st.author_cache := by
  unfold get_citing_papers
  cases h : svc.citedby pub with
  | error e => simp [h]
  | ok x =>
    obtain ⟨cs, b⟩ := x
    simpa [h] using citingLoop_caches mc cs st 0

theorem get_author_affiliation_geocache (clean : String → String) (svc : Services)
    (st : St) (nm : String) :
    (get_author_affiliation clean svc st nm).2.1.geocode_cache = st.geocode_cache := by
  unfold get_author_affiliation
  cases hl : lookupA st.author_cache nm with
  | some v => simp [hl]
  | none =>
    cases hsa : svc.searchAuthor nm with
    | error e => simp [hl, hsa, popDelay]
    | ok hit =>
      cases hit with
      | none => simp [hl, hsa, popDelay]
      | some h => simp [hl, hsa, popDelay]

theorem processCitingPaper_geocache (clean : String → String) (svc : Services)
    (acc : List CitingInfo × List (String × AffInfo) × St × List ECall)
    (cp : Citation) :
    (processCitingPaper clean svc acc cp).2.2.1.geocode_cache =
      acc.2.2.1.geocode_cache := by
  obtain ⟨citing, affMap, st, tr⟩ := acc
  unfold processCitingPaper
  by_cases h1 : (cp.bib.getD ⟨none, none, none⟩).author.getD "" = ""
  · simp [h1]
  · simp only [h1, if_false]
    cases hsp : pySplit ((cp.bib.getD ⟨none, none, none⟩).author.getD "") " and " with
    | nil => simp
    | cons a0 rest =>
      by_cases h2 : pyStrip a0 ≠ "" ∧ 1 < (pyStrip a0).length
      · simp [h2.1, h2.2, get_author_affiliation_geocache]
      · by_cases ha : pyStrip a0 = ""
        · simp [ha]
        · have hb : ¬(1 < (pyStrip a0).length) := fun hb => h2 ⟨ha, hb⟩
          simp [ha, hb]

theorem citing_fold_geocache (clean : String → String) (svc : Services)
    (cps : List Citation) :
    ∀ (acc : List CitingInfo × List (String × AffInfo) × St × List ECall),
      (cps.foldl (processCitingPaper clean svc) acc).2.2.1.geocode_cache =
        acc.2.2.1.geocode_cache := by
  induction cps with
  | nil => intro acc; rfl
  | cons cp cps ih =>
    intro acc
    rw [List.foldl_cons, ih, processCitingPaper_geocache]

theorem processPublication_geocache (clean : String → String) (svc : Services)
    (mc : Int)
    (acc : List PubInfo × List CitingInfo × List (String × AffInfo) × St × List ECall)
    (pub : Pub) :
    (processPublication clean svc mc acc pub).2.2.2.1.geocode_cache =
      acc.2.2.2.1.geocode_cache := by
  obtain ⟨pubInfos, citing, affMap, st, tr⟩ := acc
  unfold processPublication
  by_cases hc : (0 : Int) < (get_publication_details svc st pub).1.num_citations.getD 0
  · simp [hc, citing_fold_geocache, (get_citing_papers_caches svc _ _ mc).1,
      (get_publication_details_caches svc st pub).1]
  · simp [hc, (get_publication_details_caches svc st pub).1]

theorem publicationLoop_geocache (clean : String → String) (svc : Services)
    (st : St) (pubs : List Pub) (mc : Int) :
    (publicationLoop clean svc st pubs mc).2.2.2.1.geocode_cache =
      st.geocode_cache := by
  unfold publicationLoop
  have haux : ∀ (l : List Pub)
      (acc : List PubInfo × List CitingInfo × List (String × AffInfo) × St × List ECall),
      (l.foldl (processPublication clean svc mc) acc).2.2.2.1.geocode_cache =
        acc.2.2.2.1.geocode_cache := by
    intro l
    induction l with
    | nil => intro acc; rfl
    | cons p ps ih =>
      intro acc
      rw [List.foldl_cons, ih, processPublication_geocache]
  rw [haux]

theorem geoConsistent_of_cache_eq (svc : Services) (st1 st2 : St)
    (h : st2.geocode_cache = st1.geocode_cache) (hc : GeoConsistent svc st1) :
    GeoConsistent svc st2 := by
  intro k v hkv
  rw [h] at hkv
  exact hc k v hkv

theorem geocode_institution_preserves_consistent (svc : Services) (st : St)
    (s : String) (h : GeoConsistent svc st) :
    GeoConsistent svc (geocode_institution svc st s).2.1 := by
  unfold geocode_institution
  by_cases hb : pyStrip s = ""
  · simpa [hb] using h
  · simp only [hb, if_false]
    cases hl : lookupA st.geocode_cache (pyStrip s) with
    | some w => simpa using h
    | none =>
      cases hg : svc.geocode (pyStrip s) with
      | error e =>
        intro k v hkv
        simp only [popDelay] at hkv
        by_cases hk : k = pyStrip s
        · subst hk
          rw [lookupA_insertA_self] at hkv
          injection hkv with hv
          rw [← hv]
          unfold externGeo
          rw [hg]
        · rw [lookupA_insertA_ne _ _ _ _ hk] at hkv
          exact h k v hkv
      | ok o =>
        cases o with
        | none =>
          intro k v hkv
          simp only [popDelay] at hkv
          by_cases hk : k = pyStrip s
          · subst hk
            rw [lookupA_insertA_self] at hkv
            injection hkv with hv
            rw [← hv]
            unfold externGeo
            rw [hg]
          · rw [lookupA_insertA_ne _ _ _ _ hk] at hkv
            exact h k v hkv
        | some loc =>
          intro k v hkv
          simp only [popDelay] at hkv
          by_cases hk : k = pyStrip s
          · subst hk
            rw [lookupA_insertA_self] at hkv
            injection hkv with hv
            rw [← hv]
            unfold externGeo
            rw [hg]
          · rw [lookupA_insertA_ne _ _ _ _ hk] at hkv
            exact h k v hkv

theorem geocode_institution_some_consistent (svc : Services) (st : St) (s : String)
    (loc : Location) (hcons : GeoConsistent svc st)
    (h : (geocode_institution svc st s).1 = some loc) :
    externGeo svc (pyStrip s) = some loc := by
  unfold geocode_institution at h
  by_cases hb : pyStrip s = ""
  · simp [hb] at h
  · simp only [hb, if_false] at h
    cases hl : lookupA st.geocode_cache (pyStrip s) with
    | some w =>
      rw [hl] at h
      simp only [] at h
      have hw := hcons (pyStrip s) w hl
      rw [← hw]
      exact h
    | none =>
      rw [hl] at h
      cases hg : svc.geocode (pyStrip s) with
      | error e =>
        rw [hg] at h
        simp at h
      | ok o =>
        cases o with
        | none =>
          rw [hg] at h
          simp at h
        | some loc2 =>
          rw [hg] at h
          simp only [] at h
          unfold externGeo
          rw [hg]
          exact congrArg some (by injection h)

theorem geocodeEntry_eq (svc : Services) (locs : List LocEntry) (st : St)
    (tr : List ECall) (k : String) (inf : AffInfo) :
    geocodeEntry svc (locs, st, tr) (k, inf) =
      match (geocode_institution svc st k).1 with
      | some loc =>
        (locs ++ [⟨k, loc.lat, loc.lng, inf.count, inf.authors.take 5⟩],
         (geocode_institution svc st k).2.1, tr ++ (geocode_institution svc st k).2.2)
      | none =>
        (locs, (geocode_institution svc st k).2.1,
         tr ++ (geocode_institution svc st k).2.2) := by
  unfold geocodeEntry
  rcases h : geocode_institution svc st k with ⟨coords, st1, tr1⟩
  cases coords with
  | some loc => simp [h]
  | none => simp [h]

theorem geocodeLoop_mem (svc : Services) (entries : List (String × AffInfo)) :
    ∀ (locs : List LocEntry) (st : St) (tr : List ECall) (e : LocEntry),
      GeoConsistent svc st →
      e ∈ (entries.foldl (geocodeEntry svc) (locs, st, tr)).1 →
      e ∈ locs ∨ ∃ k inf loc, (k, inf) ∈ entries ∧
        externGeo svc (pyStrip k) = some loc ∧
        e = ⟨k, loc.lat, loc.lng, inf.count, inf.authors.take 5⟩ := by
  induction entries with
  | nil =>
    intro locs st tr e _ he
    exact Or.inl he
  | cons p es ih =>
    intro locs st tr e hcons he
    obtain ⟨k, inf⟩ := p
    rw [List.foldl_cons, geocodeEntry_eq] at he
    have hcons1 : GeoConsistent svc (geocode_institution svc st k).2.1 :=
      geocode_institution_preserves_consistent svc st k hcons
    cases hg : (geocode_institution svc st k).1 with
    | some loc =>
      simp only [hg] at he
      rcases ih _ _ _ e hcons1 he with hin | ⟨k2, inf2, loc2, hmem2, hext2, he2⟩
      · rcases List.mem_append.mp hin with hin | hin
        · exact Or.inl hin
        · rcases List.mem_singleton.mp hin with rfl
          exact Or.inr ⟨k, inf, loc, List.mem_cons_self _ _,
            geocode_institution_some_consistent svc st k loc hcons hg, rfl⟩
      · exact Or.inr ⟨k2, inf2, loc2, List.mem_cons_of_mem _ hmem2, hext2, he2⟩
    | none =>
      simp only [hg] at he
      rcases ih _ _ _ e hcons1 he with hin | ⟨k2, inf2, loc2, hmem2, hext2, he2⟩
      · exact Or.inl hin
      · exact Or.inr ⟨k2, inf2, loc2, List.mem_cons_of_mem _ hmem2, hext2, he2⟩


/-- C10.  Every entry of the `locations` list built by the geocoding
loop over the publication loop's `affiliations_map` (the list that
becomes `result['locations']` of a successful `/api/analyze`
response) has: a non-empty institution that the external geocoder
resolves (its `lat`/`lng` are the geocoder's coordinates), a `count`
of at least 1, and a non-empty, duplicate-free `authors` list of at
most 5 names.  The hypothesis says the starting geocode cache holds
only values the geocoder would return — true of the empty cache the
process starts with and preserved by every cache write. -/
theorem locations_entries_ok (clean : String → String) (svc : Services)
    (st : St) (pubs : List Pub) (mc : Int) (e : LocEntry)
    (hcons : GeoConsistent svc st)
    (he : e ∈ (geocodeLoop svc (publicationLoop clean svc st pubs mc).2.2.2.1
                 (publicationLoop clean svc st pubs mc).2.2.1).1) :
    e.institution ≠ "" ∧
    (externGeo svc (pyStrip e.institution)).map Location.lat = some e.lat ∧
    (externGeo svc (pyStrip e.institution)).map Location.lng = some e.lng ∧
    1 ≤ e.count ∧ e.authors ≠ [] ∧ e.authors.Nodup ∧ e.authors.length ≤ 5 := by
  have hcons2 : GeoConsistent svc (publicationLoop clean svc st pubs mc).2.2.2.1 :=
    geoConsistent_of_cache_eq svc st _ (publicationLoop_geocache clean svc st pubs mc) hcons
  unfold geocodeLoop at he
  rcases geocodeLoop_mem svc (publicationLoop clean svc st pubs mc).2.2.1
      [] _ [] e hcons2 he with hin | ⟨k, inf, loc, hmem, hext, he2⟩
  · simp at hin
  · obtain ⟨hkeys, hempty, hcmem, hfacts⟩ := affInv_publicationLoop clean svc st pubs mc
    have hlk : lookupA (publicationLoop clean svc st pubs mc).2.2.1 k = some inf :=
      lookupA_of_mem _ k inf hkeys hmem
    obtain ⟨hane, hcount, hauthors, hpos, hne⟩ := hfacts k inf hlk
    subst he2
    refine ⟨hane, ?_, ?_, hpos, ?_, ?_, ?_⟩
    · rw [hext]; rfl
    · rw [hext]; rfl
    · rcases hainf : inf.authors with _ | ⟨x, xs⟩
      · exact absurd hainf hne
      · simp
    · have hnodup : inf.authors.Nodup := by
        rw [hauthors]
        exact nodup_dedupFirst _
      exact (List.take_sublist 5 inf.authors).nodup hnodup
    · exact List.length_take_le 5 inf.authors

/-- C10 witness: the concrete run's single location entry. -/
theorem locations_entries_ok_witness :
    (⟨"MIT", 42, -71, 3, ["John Smith", "Jane Doe"]⟩ : LocEntry).institution ≠ "" ∧
    (externGeo sampleSvc (pyStrip (⟨"MIT", 42, -71, 3, ["John Smith", "Jane Doe"]⟩ :
        LocEntry).institution)).map Location.lat =
      some (⟨"MIT", 42, -71, 3, ["John Smith", "Jane Doe"]⟩ : LocEntry).lat ∧
    (externGeo sampleSvc (pyStrip (⟨"MIT", 42, -71, 3, ["John Smith", "Jane Doe"]⟩ :
        LocEntry).institution)).map Location.lng =
      some (⟨"MIT", 42, -71, 3, ["John Smith", "Jane Doe"]⟩ : LocEntry).lng ∧
    1 ≤ (⟨"MIT", 42, -71, 3, ["John Smith", "Jane Doe"]⟩ : LocEntry).count ∧
    (⟨"MIT", 42, -71, 3, ["John Smith", "Jane Doe"]⟩ : LocEntry).authors ≠ [] ∧
    (⟨"MIT", 42, -71, 3, ["John Smith", "Jane Doe"]⟩ : LocEntry).authors.Nodup ∧
    (⟨"MIT", 42, -71, 3, ["John Smith", "Jane Doe"]⟩ : LocEntry).authors.length ≤ 5 :=
  locations_entries_ok id sampleSvc st0 (select_publications [pubA, pubB, pubC] 3) 5
    ⟨"MIT", 42, -71, 3, ["John Smith", "Jane Doe"]⟩
    (by intro k v h; simp [st0, lookupA] at h)
    (by decide)


/-! ## Claim C7: results do not depend on the sleep/random delays

Each lemma below says: two module states that agree on both caches
but carry arbitrary, different delay streams produce the same
results, the same traces and cache-equal successor states. -/

theorem geocode_institution_frame (svc : Services) (st1 st2 : St) (s : String)
    (hg : st1.geocode_cache = st2.geocode_cache)
    (ha : st1.author_cache = st2.author_cache) :
    (geocode_institution svc st1 s).1 = (geocode_institution svc st2 s).1 ∧
    (geocode_institution svc st1 s).2.2 = (geocode_institution svc st2 s).2.2 ∧
    (geocode_institution svc st1 s).2.1.geocode_cache =
      (geocode_institution svc st2 s).2.1.geocode_cache ∧
    (geocode_institution svc st1 s).2.1.author_cache =
      (geocode_institution svc st2 s).2.1.author_cache := by
  unfold geocode_institution
  by_cases hb : pyStrip s = ""
  · simp [hb, hg, ha]
  · simp only [hb, if_false, hg]
    cases hl : lookupA st2.geocode_cache (pyStrip s) with
    | some v => simp [hg, ha]
    | none =>
      cases hgg : svc.geocode (pyStrip s) with
      | error e => simp [popDelay, hg, ha]
      | ok o =>
        cases o with
        | none => simp [popDelay, hg, ha]
        | some loc => simp [popDelay, hg, ha]

theorem get_author_info_frame (svc : Services) (st1 st2 : St) (aid : String) :
    (get_author_info svc st1 aid).1 = (get_author_info svc st2 aid).1 ∧
    (get_author_info svc st1 aid).2.2 = (get_author_info svc st2 aid).2.2 ∧
    (get_author_info svc st1 aid).2.1.geocode_cache = st1.geocode_cache ∧
    (get_author_info svc st1 aid).2.1.author_cache = st1.author_cache := by
  unfold get_author_info
  cases hsa : svc.searchAuthorId aid with
  | error e => simp [popDelay]
  | ok a =>
    cases hfa : svc.fillAuthor a with
    | error e => simp [hfa, popDelay]
    | ok a2 => simp [hfa, popDelay]

theorem get_publication_details_frame (svc : Services) (st1 st2 : St) (pub : Pub) :
    (get_publication_details svc st1 pub).1 = (get_publication_details svc st2 pub).1 ∧
    (get_publication_details svc st1 pub).2.2 =
      (get_publication_details svc st2 pub).2.2 := by
  unfold get_publication_details
  cases h : svc.fillPub pub with
  | error e => simp
  | ok p => simp

theorem get_citing_papers_frame (svc : Services) (st1 st2 : St) (pub : Pub) (mc : Int) :
    (get_citing_papers svc st1 pub mc).1 = (get_citing_papers svc st2 pub mc).1 ∧
    (get_citing_papers svc st1 pub mc).2.2 = (get_citing_papers svc st2 pub mc).2.2 := by
  unfold get_citing_papers
  cases hcb : svc.citedby pub with
  | error e => simp
  | ok x =>
    obtain ⟨cs, b⟩ := x
    simp [citingLoop_fst]

theorem get_author_affiliation_frame (clean : String → String) (svc : Services)
    (st1 st2 : St) (nm : String) (ha : st1.author_cache = st2.author_cache) :
    (get_author_affiliation clean svc st1 nm).1 =
      (get_author_affiliation clean svc st2 nm).1 ∧
    (get_author_affiliation clean svc st1 nm).2.2 =
      (get_author_affiliation clean svc st2 nm).2.2 ∧
    (get_author_affiliation clean svc st1 nm).2.1.author_cache =
      (get_author_affiliation clean svc st2 nm).2.1.author_cache := by
  unfold get_author_affiliation
  rw [ha]
  cases hl : lookupA st2.author_cache nm with
  | some v => simp [ha]
  | none =>
    cases hsa : svc.searchAuthor nm with
    | error e => simp [popDelay, ha]
    | ok hit =>
      cases hit with
      | none => simp [popDelay, ha]
      | some h => simp [popDelay, ha]

theorem processCitingPaper_frame (clean : String → String) (svc : Services)
    (c : List CitingInfo) (m : List (String × AffInfo)) (t : List ECall)
    (s1 s2 : St) (cp : Citation)
    (hg : s1.geocode_cache = s2.geocode_cache)
    (ha : s1.author_cache = s2.author_cache) :
    (processCitingPaper clean svc (c, m, s1, t) cp).1 =
      (processCitingPaper clean svc (c, m, s2, t) cp).1 ∧
    (processCitingPaper clean svc (c, m, s1, t) cp).2.1 =
      (processCitingPaper clean svc (c, m, s2, t) cp).2.1 ∧
    (processCitingPaper clean svc (c, m, s1, t) cp).2.2.2 =
      (processCitingPaper clean svc (c, m, s2, t) cp).2.2.2 ∧
    (processCitingPaper clean svc (c, m, s1, t) cp).2.2.1.geocode_cache =
      (processCitingPaper clean svc (c, m, s2, t) cp).2.2.1.geocode_cache ∧
    (processCitingPaper clean svc (c, m, s1, t) cp).2.2.1.author_cache =
      (processCitingPaper clean svc (c, m, s2, t) cp).2.2.1.author_cache := by
  unfold processCitingPaper
  by_cases h1 : (cp.bib.getD ⟨none, none, none⟩).author.getD "" = ""
  · simp [h1, hg, ha]
  · simp only [h1, if_false]
    cases hsp : pySplit ((cp.bib.getD ⟨none, none, none⟩).author.getD "") " and " with
    | nil => simp [hg, ha]
    | cons a0 rest =>
      obtain ⟨hfa1, hfa2, hfa3⟩ :=
        get_author_affiliation_frame clean svc s1 s2 (pyStrip a0) ha
      have hfg1 : (get_author_affiliation clean svc s1 (pyStrip a0)).2.1.geocode_cache =
          s1.geocode_cache := get_author_affiliation_geocache clean svc s1 (pyStrip a0)
      have hfg2 : (get_author_affiliation clean svc s2 (pyStrip a0)).2.1.geocode_cache =
          s2.geocode_cache := get_author_affiliation_geocache clean svc s2 (pyStrip a0)
      by_cases h2 : pyStrip a0 ≠ "" ∧ 1 < (pyStrip a0).length
      · simp [h2.1, h2.2, hfa1, hfa2, hfa3, hfg1, hfg2, hg]
      · by_cases hx : pyStrip a0 = ""
        · simp [hx, hg, ha]
        · have hb : ¬(1 < (pyStrip a0).length) := fun hb => h2 ⟨hx, hb⟩
          simp [hx, hb, hg, ha]

theorem citing_fold_frame (clean : String → String) (svc : Services)
    (cps : List Citation) :
    ∀ (c : List CitingInfo) (m : List (String × AffInfo)) (t : List ECall)
      (s1 s2 : St),
      s1.geocode_cache = s2.geocode_cache → s1.author_cache = s2.author_cache →
      (cps.foldl (processCitingPaper clean svc) (c, m, s1, t)).1 =
        (cps.foldl (processCitingPaper clean svc) (c, m, s2, t)).1 ∧
      (cps.foldl (processCitingPaper clean svc) (c, m, s1, t)).2.1 =
        (cps.foldl (processCitingPaper clean svc) (c, m, s2, t)).2.1 ∧
      (cps.foldl (processCitingPaper clean svc) (c, m, s1, t)).2.2.2 =
        (cps.foldl (processCitingPaper clean svc) (c, m, s2, t)).2.2.2 ∧
      (cps.foldl (processCitingPaper clean svc) (c, m, s1, t)).2.2.1.geocode_cache =
        (cps.foldl (processCitingPaper clean svc) (c, m, s2, t)).2.2.1.geocode_cache ∧
      (cps.foldl (processCitingPaper clean svc) (c, m, s1, t)).2.2.1.author_cache =
        (cps.foldl (processCitingPaper clean svc) (c, m, s2, t)).2.2.1.author_cache := by
  induction cps with
  | nil =>
    intro c m t s1 s2 hg ha
    exact ⟨rfl, rfl, rfl, hg, ha⟩
  | cons cp cps ih =>
    intro c m t s1 s2 hg ha
    obtain ⟨p1, p2, p3, p4, p5⟩ := processCitingPaper_frame clean svc c m t s1 s2 cp hg ha
    rw [List.foldl_cons, List.foldl_cons]
    rcases hacc1 : processCitingPaper clean svc (c, m, s1, t) cp with ⟨c1, m1, o1, t1⟩
    rcases hacc2 : processCitingPaper clean svc (c, m, s2, t) cp with ⟨c2, m2, o2, t2⟩
    rw [hacc1, hacc2] at p1 p2 p3 p4 p5
    simp only [] at p1 p2 p3 p4 p5
    subst p1; subst p2; subst p3
    exact ih c1 m1 t1 o1 o2 p4 p5


theorem processPublication_frame (clean : String → String) (svc : Services)
    (mc : Int) (pis : List PubInfo) (c : List CitingInfo)
    (m : List (String × AffInfo)) (t : List ECall) (s1 s2 : St) (pub : Pub)
    (hg : s1.geocode_cache = s2.geocode_cache)
    (ha : s1.author_cache = s2.author_cache) :
    (processPublication clean svc mc (pis, c, m, s1, t) pub).1 =
      (processPublication clean svc mc (pis, c, m, s2, t) pub).1 ∧
    (processPublication clean svc mc (pis, c, m, s1, t) pub).2.1 =
      (processPublication clean svc mc (pis, c, m, s2, t) pub).2.1 ∧
    (processPublication clean svc mc (pis, c, m, s1, t) pub).2.2.1 =
      (processPublication clean svc mc (pis, c, m, s2, t) pub).2.2.1 ∧
    (processPublication clean svc mc (pis, c, m, s1, t) pub).2.2.2.2 =
      (processPublication clean svc mc (pis, c, m, s2, t) pub).2.2.2.2 ∧
    (processPublication clean svc mc (pis, c, m, s1, t) pub).2.2.2.1.geocode_cache =
      (processPublication clean svc mc (pis, c, m, s2, t) pub).2.2.2.1.geocode_cache ∧
    (processPublication clean svc mc (pis, c, m, s1, t) pub).2.2.2.1.author_cache =
      (processPublication clean svc mc (pis, c, m, s2, t) pub).2.2.2.1.author_cache := by
  unfold processPublication
  obtain ⟨hd1, hd2⟩ := get_publication_details_frame svc s1 s2 pub
  have hca1 := get_publication_details_caches svc s1 pub
  have hca2 := get_publication_details_caches svc s2 pub
  have hg' : (get_publication_details svc s1 pub).2.1.geocode_cache =
      (get_publication_details svc s2 pub).2.1.geocode_cache := by
    rw [hca1.1, hca2.1, hg]
  have ha' : (get_publication_details svc s1 pub).2.1.author_cache =
      (get_publication_details svc s2 pub).2.1.author_cache := by
    rw [hca1.2, hca2.2, ha]
  by_cases hcit : (0 : Int) <
      (get_publication_details svc s2 pub).1.num_citations.getD 0
  · obtain ⟨hcp1, hcp2⟩ := get_citing_papers_frame svc
      (get_publication_details svc s1 pub).2.1
      (get_publication_details svc s2 pub).2.1
      (get_publication_details svc s2 pub).1 mc
    have hcc1 := get_citing_papers_caches svc
      (get_publication_details svc s1 pub).2.1 (get_publication_details svc s2 pub).1 mc
    have hcc2 := get_citing_papers_caches svc
      (get_publication_details svc s2 pub).2.1 (get_publication_details svc s2 pub).1 mc
    have hff := citing_fold_frame clean svc
      (get_citing_papers svc (get_publication_details svc s2 pub).2.1
        (get_publication_details svc s2 pub).1 mc).1
      c m []
      (get_citing_papers svc (get_publication_details svc s1 pub).2.1
        (get_publication_details svc s2 pub).1 mc).2.1
      (get_citing_papers svc (get_publication_details svc s2 pub).2.1
        (get_publication_details svc s2 pub).1 mc).2.1
      (by rw [hcc1.1, hcc2.1, hg']) (by rw [hcc1.2, hcc2.2, ha'])
    simp [hd1, hd2, hcit, hcp1, hcp2, hff.1, hff.2.1, hff.2.2.1, hff.2.2.2.1,
      hff.2.2.2.2]
  · simp [hd1, hd2, hcit, hg', ha']

theorem publication_fold_frame (clean : String → String) (svc : Services)
    (mc : Int) (pubs : List Pub) :
    ∀ (pis : List PubInfo) (c : List CitingInfo) (m : List (String × AffInfo))
      (t : List ECall) (s1 s2 : St),
      s1.geocode_cache = s2.geocode_cache → s1.author_cache = s2.author_cache →
      (pubs.foldl (processPublication clean svc mc) (pis, c, m, s1, t)).1 =
        (pubs.foldl (processPublication clean svc mc) (pis, c, m, s2, t)).1 ∧
      (pubs.foldl (processPublication clean svc mc) (pis, c, m, s1, t)).2.1 =
        (pubs.foldl (processPublication clean svc mc) (pis, c, m, s2, t)).2.1 ∧
      (pubs.foldl (processPublication clean svc mc) (pis, c, m, s1, t)).2.2.1 =
        (pubs.foldl (processPublication clean svc mc) (pis, c, m, s2, t)).2.2.1 ∧
      (pubs.foldl (processPublication clean svc mc) (pis, c, m, s1, t)).2.2.2.2 =
        (pubs.foldl (processPublication clean svc mc) (pis, c, m, s2, t)).2.2.2.2 ∧
      (pubs.foldl (processPublication clean svc mc)
          (pis, c, m, s1, t)).2.2.2.1.geocode_cache =
        (pubs.foldl (processPublication clean svc mc)
          (pis, c, m, s2, t)).2.2.2.1.geocode_cache ∧
      (pubs.foldl (processPublication clean svc mc)
          (pis, c, m, s1, t)).2.2.2.1.author_cache =
        (pubs.foldl (processPublication clean svc mc)
          (pis, c, m, s2, t)).2.2.2.1.author_cache := by
  induction pubs with
  | nil =>
    intro pis c m t s1 s2 hg ha
    exact ⟨rfl, rfl, rfl, rfl, hg, ha⟩
  | cons p ps ih =>
    intro pis c m t s1 s2 hg ha
    obtain ⟨q1, q2, q3, q4, q5, q6⟩ :=
      processPublication_frame clean svc mc pis c m t s1 s2 p hg ha
    rw [List.foldl_cons, List.foldl_cons]
    rcases hacc1 : processPublication clean svc mc (pis, c, m, s1, t) p with
      ⟨pi1, c1, m1, o1, t1⟩
    rcases hacc2 : processPublication clean svc mc (pis, c, m, s2, t) p with
      ⟨pi2, c2, m2, o2, t2⟩
    rw [hacc1, hacc2] at q1 q2 q3 q4 q5 q6
    simp only [] at q1 q2 q3 q4 q5 q6
    subst q1; subst q2; subst q3; subst q4
    exact ih pi1 c1 m1 t1 o1 o2 q5 q6

theorem geocodeEntry_frame (svc : Services) (locs : List LocEntry) (t : List ECall)
    (s1 s2 : St) (p : String × AffInfo)
    (hg : s1.geocode_cache = s2.geocode_cache)
    (ha : s1.author_cache = s2.author_cache) :
    (geocodeEntry svc (locs, s1, t) p).1 = (geocodeEntry svc (locs, s2, t) p).1 ∧
    (geocodeEntry svc (locs, s1, t) p).2.2 = (geocodeEntry svc (locs, s2, t) p).2.2 ∧
    (geocodeEntry svc (locs, s1, t) p).2.1.geocode_cache =
      (geocodeEntry svc (locs, s2, t) p).2.1.geocode_cache ∧
    (geocodeEntry svc (locs, s1, t) p).2.1.author_cache =
      (geocodeEntry svc (locs, s2, t) p).2.1.author_cache := by
  obtain ⟨k, inf⟩ := p
  obtain ⟨g1, g2, g3, g4⟩ := geocode_institution_frame svc s1 s2 k hg ha
  rw [geocodeEntry_eq, geocodeEntry_eq]
  cases hgr : (geocode_institution svc s2 k).1 with
  | some loc =>
    rw [g1, hgr]
    simp [g2, g3, g4]
  | none =>
    rw [g1, hgr]
    simp [g2, g3, g4]

theorem geocode_fold_frame (svc : Services) (entries : List (String × AffInfo)) :
    ∀ (locs : List LocEntry) (t : List ECall) (s1 s2 : St),
      s1.geocode_cache = s2.geocode_cache → s1.author_cache = s2.author_cache →
      (entries.foldl (geocodeEntry svc) (locs, s1, t)).1 =
        (entries.foldl (geocodeEntry svc) (locs, s2, t)).1 := by
  induction entries with
  | nil =>
    intro locs t s1 s2 hg ha
    rfl
  | cons p es ih =>
    intro locs t s1 s2 hg ha
    obtain ⟨g1, g2, g3, g4⟩ := geocodeEntry_frame svc locs t s1 s2 p hg ha
    rw [List.foldl_cons, List.foldl_cons]
    rcases hacc1 : geocodeEntry svc (locs, s1, t) p with ⟨l1, o1, t1⟩
    rcases hacc2 : geocodeEntry svc (locs, s2, t) p with ⟨l2, o2, t2⟩
    rw [hacc1, hacc2] at g1 g2 g3 g4
    simp only [] at g1 g2 g3 g4
    subst g1; subst g2
    exact ih l1 t1 o1 o2 g3 g4

/-- C7.  The analysis is serial and its JSON output does not depend
on timing: for any fixed request payload, fixed external-service
responses and fixed cache contents, two `/api/analyze` runs whose
`random.uniform`/`time.sleep` delay streams differ arbitrarily
produce the same status and the same JSON body — the same entries in
the same order in `publications`, `citing_authors` and `locations`. -/
theorem analyze_timing_independent (clean : String → String) (svc : Services)
    (gc : List (String × Option Location)) (ac : List (String × String))
    (d1 d2 : List Nat) (data : Payload) :
    (analyze_scholar clean svc ⟨gc, ac, d1⟩ data).1 =
      (analyze_scholar clean svc ⟨gc, ac, d2⟩ data).1 := by
  unfold analyze_scholar
  cases hex : extract_author_id (data.url.getD "") with
  | none => simp [hex]
  | some aid =>
    obtain ⟨a1, a2, a3, a4⟩ := get_author_info_frame svc ⟨gc, ac, d1⟩ ⟨gc, ac, d2⟩ aid
    obtain ⟨_, _, b3, b4⟩ := get_author_info_frame svc ⟨gc, ac, d2⟩ ⟨gc, ac, d1⟩ aid
    cases hga : (get_author_info svc ⟨gc, ac, d2⟩ aid).1 with
    | none =>
      simp only [hex]
      simp only [a1, hga]
    | some author =>
      simp only [hex]
      simp only [a1, hga]
      have hg0 : (get_author_info svc ⟨gc, ac, d1⟩ aid).2.1.geocode_cache =
          (get_author_info svc ⟨gc, ac, d2⟩ aid).2.1.geocode_cache := by
        rw [a3, b3]
      have ha0 : (get_author_info svc ⟨gc, ac, d1⟩ aid).2.1.author_cache =
          (get_author_info svc ⟨gc, ac, d2⟩ aid).2.1.author_cache := by
        rw [a4, b4]
      have hloop := publication_fold_frame clean svc
        (min (data.max_citations.getD 5) 10)
        (select_publications (author.publications.getD [])
          (min (data.max_papers.getD 3) 5))
        [] [] [] []
        (get_author_info svc ⟨gc, ac, d1⟩ aid).2.1
        (get_author_info svc ⟨gc, ac, d2⟩ aid).2.1 hg0 ha0
    
      have hgeoloop := geocode_fold_frame svc
        (List.foldl (processPublication clean svc (min (data.max_citations.getD 5) 10))
          ([], [], [], (get_author_info svc ⟨gc, ac, d2⟩ aid).2.1, [])
          (select_publications (author.publications.getD [])
            (min (data.max_papers.getD 3) 5))).2.2.1
        [] []
        (List.foldl (processPublication clean svc (min (data.max_citations.getD 5) 10))
          ([], [], [], (get_author_info svc ⟨gc, ac, d1⟩ aid).2.1, [])
          (select_publications (author.publications.getD [])
            (min (data.max_papers.getD 3) 5))).2.2.2.1
        (List.foldl (processPublication clean svc (min (data.max_citations.getD 5) 10))
          ([], [], [], (get_author_info svc ⟨gc, ac, d2⟩ aid).2.1, [])
          (select_publications (author.publications.getD [])
            (min (data.max_papers.getD 3) 5))).2.2.2.1
        hloop.2.2.2.2.1 hloop.2.2.2.2.2
      unfold publicationLoop geocodeLoop
      rw [hloop.1, hloop.2.1, hloop.2.2.1, hgeoloop]

end CitationMap
